import Mathlib

/-
  Verification of the Arctic-Orchestra orchestration engine.

  Shallow embedding of:
  - `src/src/arctic_orchestra/Agents/base.py` (dispatch engine, tool-schema builder),
  - `src/src/arctic_orchestra/Agents/sequential_agent.py` (memory controller),
  - `src/src/arctic_orchestra/Agents/loop_agent.py` (capability-injection LoopAgent),
  - `src/Agents/loop_agent.py` (structured-flag LoopSequentialAgent).

  Modelling conventions:
  - Python strings are Lean `String`s; `len` is `String.length` (exact for the
    ASCII data used in concrete theorems).
  - Python exceptions are `Except`; a caught exception is handled in place, an
    uncaught one propagates as `Except.error`.
  - Opaque external collaborators (the LLM call, tool bodies, the compression
    model) are function parameters; `deepcopy` of plain data is the identity on
    Lean values (value semantics).
  - `json.dumps` on the memory-entry shapes that actually occur is implemented
    character-exactly (Python default separators `", "` and `": "`), assuming
    contents need no escaping beyond quote/backslash, which holds for every
    concrete input used below.
-/

namespace Arctic

/-! ## Tool-schema builder (base.py, `Agent._get_type_name` / `Agent._build_tool_schemas`)

A Python callable is modelled by its introspectable data: docstring and ordered
parameter list, each parameter carrying its name, optional type hint and whether
it has a default value (`param.default != inspect._empty`). -/

/-- Python type hints that `_get_type_name` distinguishes; `other` stands for
any hint outside the closed primitive set (including `Any`). -/
inductive PyHintT where
  | pstr
  | pint
  | pfloat
  | pbool
  | pdict
  | plist
  | other
deriving DecidableEq, Repr

/-- One parameter of a Python callable, as seen by `inspect.signature` and
`get_type_hints`: `hint = none` models an unannotated parameter
(`type_hints.get(param_name, str)` then defaults it to `str`). -/
structure PyParam where
  name : String
  hint : Option PyHintT
  hasDefault : Bool
deriving DecidableEq, Repr

/-- A Python callable's introspection data: `inspect.getdoc` result and its
signature parameters in declaration order. -/
structure PyFn where
  doc : Option String
  params : List PyParam
deriving DecidableEq, Repr

/-- Model of `Agent._get_type_name` (base.py lines 70-77): the closed primitive map,
anything else falls through to `"string"`. -/
def get_type_name : PyHintT → String
  | .pstr => "string"
  | .pint => "integer"
  | .pfloat => "number"
  | .pbool => "boolean"
  | .pdict => "object"
  | .plist => "array"
  | .other => "string"

/-- One entry of the `properties` object of a tool schema. -/
structure PropSchema where
  type : String
  description : String
deriving DecidableEq, Repr

/-- The `function` part of one generated tool schema
(base.py lines 109-120). -/
structure ToolSchema where
  name : String
  description : String
  properties : List (String × PropSchema)
  required : List String
deriving DecidableEq, Repr

/-- Python `s.startswith(pre)`, on the character lists. -/
def pyStartswith (s pre : String) : Bool :=
  pre.data.isPrefixOf s.data

/-- The skip condition of the parameter loop (base.py line 95):
`param_name == "self" or param_name.startswith("__")`. -/
def excludedParam (p : PyParam) : Bool :=
  p.name == "self" || pyStartswith p.name "__"

/-- The `properties` accumulation of the parameter loop (base.py lines 94-104),
split out of the single pass as its own recursion (order preserving). -/
def schemaProps : List PyParam → List (String × PropSchema)
  | [] => []
  | p :: rest =>
    if excludedParam p then schemaProps rest
    else
      (p.name, ⟨get_type_name (p.hint.getD .pstr), "Parameter " ++ p.name⟩)
        :: schemaProps rest

/-- The `required` accumulation of the parameter loop (base.py lines 94-107):
a non-excluded parameter is appended iff `param.default == inspect._empty`. -/
def schemaRequired : List PyParam → List String
  | [] => []
  | p :: rest =>
    if excludedParam p then schemaRequired rest
    else if p.hasDefault then schemaRequired rest
    else p.name :: schemaRequired rest

/-- The schema built for a single registry entry (base.py lines 86-120),
including the docstring fallback `f"Function {name}"`. -/
def mkToolSchema (name : String) (fn : PyFn) : ToolSchema :=
  { name := name
    description := fn.doc.getD ("Function " ++ name)
    properties := schemaProps fn.params
    required := schemaRequired fn.params }

/-- Model of `Agent._build_tool_schemas` (base.py lines 84-121): one schema per registry
entry, in registry iteration order. -/
def build_tool_schemas (tools : List (String × PyFn)) : List ToolSchema :=
  tools.map (fun t => mkToolSchema t.1 t.2)

/-! ## json.dumps for the memory-entry shapes (sequential_agent.py)

`SequentialAgent.short_memory` holds dicts of shape `{"agent": a, "output": o}`
(`_add_memory` line 65) and `{"compressed": t}` (`_enforce_memory_limits`
line 88).  `json.dumps` is reproduced character-exactly for these shapes. -/

/-- JSON string escaping for the characters that occur in our data (quote and
backslash; control characters and non-ASCII are never used in the concrete
inputs below, matching Python `json.dumps` on them). -/
def jsonEscapeChar (c : Char) : String :=
  if c = '\x22' then "\\\""
  else if c = '\\' then "\\\\"
  else String.singleton c

/-- A JSON string literal, `json.dumps` style. -/
def jsonStr (s : String) : String :=
  "\x22" ++ String.join (s.data.map jsonEscapeChar) ++ "\x22"

/-- A short-memory entry of the SequentialAgent memory controller. -/
inductive SMEntry where
  | out (agent : String) (output : String)
  | compressed (text : String)
deriving DecidableEq, Repr

/-- Model of `json.dumps` of one short-memory dict (insertion key order, Python default
separators). -/
def dumpsSMEntry : SMEntry → String
  | .out a o => "\x7b\x22agent\x22: " ++ jsonStr a ++ ", \x22output\x22: " ++ jsonStr o ++ "\x7d"
  | .compressed t => "\x7b\x22compressed\x22: " ++ jsonStr t ++ "\x7d"

/-- Model of `json.dumps` of the short-memory list. -/
def dumpsSM (l : List SMEntry) : String :=
  "[" ++ String.intercalate ", " (l.map dumpsSMEntry) ++ "]"

/-! ## SequentialAgent memory controller (sequential_agent.py)

`compress_with_model` / `_compress_memory` / `_enforce_memory_limits` /
`_add_memory`.  The model collaborator is abstracted to a function from the
entry list to `Except Unit String` (it sees the entries through the prompt and
either returns a summary string or raises).  A `PyErr` is an uncaught Python
exception escaping `record`. -/

/-- An uncaught Python exception, by name. -/
structure PyErr where
  kind : String
deriving DecidableEq, Repr

/-- Decidable equality of `Except` results, used to evaluate concrete runs. -/
instance {ε α : Type} [DecidableEq ε] [DecidableEq α] :
    DecidableEq (Except ε α) := fun x y =>
  match x, y with
  | .ok a, .ok b =>
    if h : a = b then isTrue (by rw [h])
    else isFalse (by intro hc; cases hc; exact h rfl)
  | .error a, .error b =>
    if h : a = b then isTrue (by rw [h])
    else isFalse (by intro hc; cases hc; exact h rfl)
  | .ok _, .error _ => isFalse (by intro hc; cases hc)
  | .error _, .ok _ => isFalse (by intro hc; cases hc)

/-- The fallback join used both in `compress_with_model`'s except-branch
(sequential_agent.py line 16) and in `_compress_memory`'s no-model branch
(lines 60-62): `" | ".join(f"{e['agent']}: {e['output'][:200]}" ...)`.
On a `{"compressed": ...}` entry the subscript `e['agent']` raises `KeyError`,
which nothing catches. -/
def fallbackJoin (entries : List SMEntry) : Except PyErr String := do
  let parts ← entries.mapM (fun e =>
    match e with
    | .out a o => Except.ok (a ++ ": " ++ (o.take 200))
    | .compressed _ => Except.error ⟨"KeyError"⟩)
  return String.intercalate " | " parts

/-- Model of `compress_with_model` (sequential_agent.py lines 5-16): try the model; on
any exception from the model call fall back to the join (which may itself
raise). The model's string-or-dict result is abstracted to the final string. -/
def compress_with_model (model : List SMEntry → Except Unit String)
    (entries : List SMEntry) : Except PyErr String :=
  match model entries with
  | .ok s => Except.ok s
  | .error _ => fallbackJoin entries

/-- Model of `SequentialAgent._compress_memory` (lines 51-62): empty entries give `""`;
with a model, delegate to `compress_with_model`; otherwise the bare join. -/
def compressMemory (cm : Option (List SMEntry → Except Unit String))
    (entries : List SMEntry) : Except PyErr String :=
  if entries.isEmpty then Except.ok ""
  else
    match cm with
    | some m => compress_with_model m entries
    | none => fallbackJoin entries

/-- Python `xs[:-w]` for a nonnegative `w`: all but the last `w` elements,
except that `w = 0` gives `[]` (since `[:-0]` is `[:0]`). -/
def pyDropLast (xs : List SMEntry) (w : Nat) : List SMEntry :=
  if w = 0 then [] else xs.take (xs.length - w)

/-- Python `xs[-w:]` for a nonnegative `w`: the last `w` elements, except that
`w = 0` gives `xs` (since `[-0:]` is `[0:]`). -/
def pyTakeLast (xs : List SMEntry) (w : Nat) : List SMEntry :=
  if w = 0 then xs else xs.drop (xs.length - w)

/-- Model of `SequentialAgent._enforce_memory_limits` (lines 72-93), acting on the short
memory: return unchanged while `len(dumps) < max_context_chars`; else compress
everything but the last `window_size` entries when the count exceeds
`window_size`; then force-truncate to the last `window_size` entries if the
re-serialized size still exceeds the limit. -/
def enforceMemoryLimits (cm : Option (List SMEntry → Except Unit String))
    (window_size max_context_chars : Nat)
    (short : List SMEntry) : Except PyErr (List SMEntry) := do
  let packed := dumpsSM short
  if packed.length < max_context_chars then
    return short
  else
    let short1 ←
      if short.length > window_size then do
        let old := pyDropLast short window_size
        let nw := pyTakeLast short window_size
        let compressed_text ← compressMemory cm old
        pure (SMEntry.compressed compressed_text :: nw)
      else
        pure short
    let packed2 := dumpsSM short1
    if packed2.length > max_context_chars then
      return pyTakeLast short1 window_size
    else
      return short1

/-- The SequentialAgent memory pair: long memory entries are the same
`{"agent": ..., "output": ...}` dicts (sequential_agent.py line 65). -/
structure SeqMem where
  long : List (String × String)
  short : List SMEntry
deriving DecidableEq, Repr

/-- Model of `SequentialAgent._add_memory` (lines 64-70): append the entry to both
memories (long memory is appended before limits are enforced, so it is updated
even when enforcement later raises), then enforce the short-memory limits. -/
def seqAddMemory (cm : Option (List SMEntry → Except Unit String))
    (window_size max_context_chars : Nat)
    (mem : SeqMem) (agent_name output : String) : Except PyErr SeqMem := do
  let long := mem.long ++ [(agent_name, output)]
  let short := mem.short ++ [SMEntry.out agent_name output]
  let short ← enforceMemoryLimits cm window_size max_context_chars short
  return { long := long, short := short }

/-- Iterated `record` calls on the SequentialAgent controller. -/
def seqRecordAll (cm : Option (List SMEntry → Except Unit String))
    (window_size max_context_chars : Nat)
    (mem : SeqMem) : List (String × String) → Except PyErr SeqMem
  | [] => Except.ok mem
  | (a, o) :: rest => do
    let mem' ← seqAddMemory cm window_size max_context_chars mem a o
    seqRecordAll cm window_size max_context_chars mem' rest

/-! ## LoopAgent memory controller (arctic_orchestra loop_agent.py)

`LoopAgent._add_memory` (lines 85-123) and
`LoopAgent._enforce_per_model_history_limits` (lines 63-83). -/

/-- A short-memory entry of the LoopAgent controller:
`{"agent": agent_name, "preview": str(response)[:1000]}`. -/
structure CapShort where
  agent : String
  preview : String
deriving DecidableEq, Repr

/-- A long-memory entry of the LoopAgent controller
(loop_agent.py lines 105-109): both fields start as `None`. -/
structure CapLong where
  agent : String
  full_output : Option String
  compressed : Option String
deriving DecidableEq, Repr

/-- The LoopAgent shared memory pair. -/
structure CapMem where
  long : List CapLong
  short : List CapShort
deriving DecidableEq, Repr

/-- Model of `LoopAgent._add_memory` (lines 85-123).  The compression model is an
abstract callable from the raw response to `Except Unit String`; any exception
it raises is caught and the raw response stored instead (the `except` branch at
lines 119-121), so this `record` never raises. -/
def capAddMemory (cm : Option (String → Except Unit String)) (window_size : Nat)
    (mem : CapMem) (agent_name : String) (response : String) : CapMem :=
  let preview := response.take 1000
  let short := mem.short ++ [⟨agent_name, preview⟩]
  -- trim short_memory to window_size (lines 98-102)
  let short :=
    if short.length > window_size then short.drop (short.length - window_size)
    else short
  let long_entry : CapLong :=
    match cm with
    | some f =>
      match f response with
      | .ok compressed =>
        ⟨agent_name, some (response.take 2000), some compressed⟩
      | .error _ => ⟨agent_name, some response, none⟩
    | none => ⟨agent_name, some response, none⟩
  { long := mem.long ++ [long_entry], short := short }

/-- A per-model history entry (loop_agent.py lines 211-215). -/
structure HistE where
  iteration : Nat
  input_preview : String
  output_preview : String
deriving DecidableEq, Repr

/-- Cumulative `output_preview` length of a history list
(loop_agent.py line 77). -/
def histChars (h : List HistE) : Nat :=
  (h.map (fun e => e.output_preview.length)).sum

/-- The second while-loop of `_enforce_per_model_history_limits`
(lines 78-80): pop the oldest entry while the list is nonempty and the
cumulative char count exceeds the limit. -/
def trimHistChars (max_chars : Nat) : List HistE → List HistE
  | [] => []
  | e :: rest =>
    if histChars (e :: rest) > max_chars then trimHistChars max_chars rest
    else e :: rest

/-- Model of `LoopAgent._enforce_per_model_history_limits` (lines 63-83): first the
count limit (pop oldest while over `max_history_per_model`), then the char
limit. -/
def enforceHistLimits (max_history max_chars : Nat) (h : List HistE) : List HistE :=
  let h := if h.length > max_history then h.drop (h.length - max_history) else h
  trimHistChars max_chars h

/-! ## Association lists standing for Python dicts keyed by strings -/

/-- Python dict assignment `d[k] = v`: overwrite in place if the key exists
(keeping its position), else append. -/
def dictInsert {α : Type} (d : List (String × α)) (k : String) (v : α) :
    List (String × α) :=
  if d.any (fun p => p.1 == k) then
    d.map (fun p => if p.1 == k then (k, v) else p)
  else d ++ [(k, v)]

/-- Python `d.get(k, default)` / `d[k]` after a `setdefault`. -/
def dictGet {α : Type} (d : List (String × α)) (k : String) (default : α) : α :=
  match d.find? (fun p => p.1 == k) with
  | some p => p.2
  | none => default

/-- Python `d.setdefault(k, [])` for list-valued dicts. -/
def dictSetdefault {α : Type} (d : List (String × α)) (k : String) (v : α) :
    List (String × α) :=
  if d.any (fun p => p.1 == k) then d else d ++ [(k, v)]

/-! ## Dispatch engine: `Agent.run` (base.py lines 133-245)

The LLM collaborator (`litellm.completion`) is abstracted to two function
parameters, one per call site, each returning either a response or raising.
Tool argument payloads are raw strings; `json.loads` is abstracted to a parse
function into an argument type `A`.  Tool callables map arguments to
`Except String String` (`str(result)` on success, `str(e)` on an exception).
The only instance field `Agent.run` writes is `final_response` (lines 240 and
244), so the mutable agent state is just that field. -/

/-- One requested tool call from the model's response. -/
structure ToolCall where
  id : Option String
  fname : String
  args : String
deriving DecidableEq, Repr

/-- A response message: its text content and the (possibly empty, standing for
a `None` or `[]` `tool_calls` attribute) list of tool calls. -/
structure RespMsg where
  content : String
  tool_calls : List ToolCall
deriving DecidableEq, Repr

/-- One choice of an LLM response. -/
structure Choice where
  message : RespMsg
deriving DecidableEq, Repr

/-- An LLM completion response. -/
structure LLMResp where
  choices : List Choice
deriving DecidableEq, Repr

/-- The messages list `Agent.run` builds and extends. -/
inductive Msg where
  | system (content : String)
  | user (content : String)
  | assistant (m : RespMsg)
  | tool (tool_call_id : Option String) (name : String) (content : String)
deriving DecidableEq, Repr

/-- Model of `Agent._construct_system_prompt` (base.py lines 123-131). -/
def constructSystemPrompt (identity instruction : String) : Msg :=
  Msg.system ("### AGENT IDENTITY\n" ++ identity ++
    "\n\n### OPERATIONAL INSTRUCTIONS\n" ++ instruction)

/-- Model of `self.tools.get(function_name)` (base.py line 204). -/
def lookupTool {A : Type} (tools : List (String × (A → Except String String)))
    (fname : String) : Option (A → Except String String) :=
  dictGet (tools.map (fun p => (p.1, some p.2))) fname none

/-- Execute one looked-up tool call body (base.py lines 204-217): unregistered
name raises `ValueError` caught into the per-call error string; an exception
from the tool body is likewise caught into an error string. -/
def execTool {A : Type} (tools : List (String × (A → Except String String)))
    (fname : String) (args : A) : String :=
  match lookupTool tools fname with
  | none => "Error executing tool " ++ fname ++ ": Tool " ++ fname ++ " is not registered."
  | some f =>
    match f args with
    | .ok r => r
    | .error e => "Error executing tool " ++ fname ++ ": " ++ e

/-- The whole per-call branch body (base.py lines 190-217): parse the raw
argument payload (`json.loads` failure caught into an empty-argument dict,
lines 195-198), then execute. -/
def execToolCall {A : Type} (parseArgs : String → Option A) (emptyArgs : A)
    (tools : List (String × (A → Except String String)))
    (tc : ToolCall) : String :=
  execTool tools tc.fname ((parseArgs tc.args).getD emptyArgs)

/-- The tool-result message appended for one call (base.py lines 219-224). -/
def toolResultMsg {A : Type} (parseArgs : String → Option A) (emptyArgs : A)
    (tools : List (String × (A → Except String String)))
    (tc : ToolCall) : Msg :=
  Msg.tool tc.id tc.fname (execToolCall parseArgs emptyArgs tools tc)

/-- The mutable agent state that `Agent.run` touches. -/
structure AgentRunSt where
  final_response : String
deriving DecidableEq, Repr

/-- The message list built at base.py lines 137-144: system prompt, supplied
history, then the formatted user task. -/
def dispatchMessages (identity instruction user_input : String)
    (history : List Msg) : List Msg :=
  [constructSystemPrompt identity instruction] ++ history ++
    [Msg.user ("### CURRENT TASK\n" ++ user_input)]

/-- Model of `Agent.run` (base.py lines 133-245).  `completion1` is the first
`litellm.completion` call (inside the `try`, so an exception becomes the
returned `"LLM Execution Error: ..."` string); `completion2` is the final call
after tool execution (not wrapped, so its exception propagates), and an empty
`choices` on the first response makes line 174 raise an uncaught `IndexError`.
Returns the produced text together with the post-invocation state. -/
def agentRun {A : Type}
    (completion1 completion2 : List Msg → Except String LLMResp)
    (parseArgs : String → Option A) (emptyArgs : A)
    (tools : List (String × (A → Except String String)))
    (model_name identity instruction : String)
    (st : AgentRunSt) (user_input : String) (history : List Msg) :
    Except String (String × AgentRunSt) :=
  let messages := dispatchMessages identity instruction user_input history
  match completion1 messages with
  | .error e => Except.ok ("LLM Execution Error: " ++ e, st)
  | .ok response =>
    match response.choices with
    | [] => Except.error "IndexError"
    | choice :: _ =>
      let response_message := choice.message
      let tool_calls := response_message.tool_calls
      if tool_calls.isEmpty then
        Except.ok (response_message.content,
          { st with final_response := response_message.content })
      else
        let messages := messages ++ [Msg.assistant response_message]
        let messages := messages ++
          tool_calls.map (toolResultMsg parseArgs emptyArgs tools)
        match completion2 messages with
        | .error e => Except.error e
        | .ok final_response =>
          match final_response.choices with
          | [] =>
            Except.ok ("LLM Execution Error: LLM returned an empty response (no choices) in the final call after tool execution. Model: "
              ++ model_name
              ++ ". Please check the logs for potential content filtering or model prediction errors.", st)
          | c :: _ =>
            let final_content := c.message.content
            Except.ok (final_content, { st with final_response := final_content })

/-! ## Structured-flag loop orchestrator: `LoopSequentialAgent`
(src/Agents/loop_agent.py)

An agent is abstracted to its name, an identity token (Python object identity,
used by the `agent in self.agents_with_exit_flag` membership test) and a
behaviour function from the structured step input to the response string
(`agent.run(json.dumps(step_input))` composed with the serialization).
`json.loads` of the response plus the two `.get` calls is abstracted to a parse
function returning the optional fields, `none` standing for
`json.JSONDecodeError`.  Each invocation also appends one ghost trace entry
(cycle, step, agent, response, whether this invocation set
`loop_flag = False`); the trace is instrumentation only and feeds back into
nothing. -/

/-- The loop-relevant fields of a successfully parsed structured output:
`parsed.get("additional_instruction", ...)` and
`parsed.get("terminate_loop", ...)`, `none` = key absent. -/
structure ParsedOut where
  additional_instruction : Option String
  terminate_loop : Option Bool
deriving DecidableEq, Repr

/-- One entry of an agent's persistent local memory
(loop_agent.py line 38). -/
structure LocalE where
  loop_cycle : Nat
  output : String
deriving DecidableEq, Repr

/-- The structured step input (loop_agent.py lines 121-130). -/
structure FStepInput where
  original_query : String
  loop_cycle : Nat
  step_number : Nat
  agent_name : String
  agent_local_memory : List LocalE
  global_short_memory : List SMEntry
  additional_instruction_from_previous_agent : Option String
  contract : String
deriving DecidableEq, Repr

/-- An agent as the flag-variant orchestrator sees it: `id` models Python
object identity (the `in agents_with_exit_flag` test), `behave` the full
dispatch of one `agent.run` call. -/
structure FAgent where
  id : Nat
  name : String
  behave : FStepInput → String

/-- Ghost trace entry: one recorded agent invocation. -/
structure FTraceE where
  cycle : Nat
  stepNo : Nat
  agent : String
  response : String
  terminated : Bool
deriving DecidableEq, Repr

/-- The flag-variant orchestrator state across one `run`. -/
structure FlagSt where
  mem : SeqMem
  localMem : List (String × List LocalE)
  loop_flag : Bool
  trace : List FTraceE
deriving DecidableEq, Repr

/-- Model of `LoopSequentialAgent._build_contract` (loop_agent.py lines 45-82),
transcribed character-exactly. -/
def build_contract (has_exit_privilege : Bool) : String :=
  let base_contract :=
    "When producing your final answer, YOU MUST output strict JSON:\n" ++
    "\x7b\n" ++
    "   \x22final_output\x22: \x22<your main generated content>\x22,\n" ++
    "   \x22additional_instruction\x22: \x22<optional guidance for next agent or empty string>\x22"
  let exit_contract :=
    if has_exit_privilege then
      ",\n" ++
      "   \x22terminate_loop\x22: <true or false>\n" ++
      "\x7d\n\n" ++
      "Rules:\n" ++
      "- Do NOT include any explanation outside the JSON structure.\n" ++
      "- `final_output` contains your main response.\n" ++
      "- `additional_instruction` passes context to the next agent (can be empty).\n" ++
      "- `terminate_loop` should be set to true ONLY when the entire workflow is complete and it satisfies the provided task.\n" ++
      "- Set `terminate_loop` to false if the workflow should continue to the next cycle.\n" ++
      "- Your local memory shows what YOU did in previous loop cycles.\n" ++
      "- Global memory shows what ALL agents have done.\n" ++
      "- Incorporate any forwarded instruction from the previous agent.\n"
    else
      "\n" ++
      "\x7d\n\n" ++
      "Rules:\n" ++
      "- Do NOT include any explanation outside the JSON structure.\n" ++
      "- `final_output` contains your main response.\n" ++
      "- `additional_instruction` passes context to the next agent (can be empty).\n" ++
      "- Your local memory shows what YOU did in previous loop cycles.\n" ++
      "- Global memory shows what ALL agents have done.\n" ++
      "- Incorporate any forwarded instruction from the previous agent.\n"
  base_contract ++ exit_contract

/-- Model of `LoopSequentialAgent._add_to_agent_memory` (lines 36-43): append, then one
`pop(0)` if the window is exceeded. -/
def addLocalMem (local_memory_window : Nat)
    (localMem : List (String × List LocalE)) (name : String) (cycle : Nat)
    (output : String) : List (String × List LocalE) :=
  let cur := dictGet localMem name [] ++ [⟨cycle, output⟩]
  let cur := if cur.length > local_memory_window then cur.drop 1 else cur
  dictInsert localMem name cur

/-- Whether one invocation of `a` on input `inp` terminates the loop
(loop_agent.py lines 143-152): the agent is in the exit list and its parsed
response has a truthy `terminate_loop`. -/
def flagSignals (exitIds : List Nat) (parse : String → Option ParsedOut)
    (a : FAgent) (inp : FStepInput) : Bool :=
  exitIds.contains a.id &&
    (match parse (a.behave inp) with
     | some p => p.terminate_loop.getD false
     | none => false)

section FlagLoop

variable (parse : String → Option ParsedOut)
variable (cm : Option (List SMEntry → Except Unit String))
variable (window_size max_context_chars local_memory_window : Nat)
variable (exitIds : List Nat) (user_query : String)

/-- One agent invocation in the flag-variant loop body
(loop_agent.py lines 114-156): build contract and step input, run the agent,
record local and global memory, parse the response, update the forwarded
instruction and possibly clear `loop_flag`. -/
def flagStep (cycle stepNo : Nat) (a : FAgent) (st : FlagSt)
    (fwd : Option String) : Except PyErr (FlagSt × Option String) := do
  let has_exit := exitIds.contains a.id
  let contract := build_contract has_exit
  let inp : FStepInput :=
    { original_query := user_query
      loop_cycle := cycle
      step_number := stepNo
      agent_name := a.name
      agent_local_memory := dictGet st.localMem a.name []
      global_short_memory := st.mem.short
      additional_instruction_from_previous_agent := fwd
      contract := contract }
  let response := a.behave inp
  let localMem := addLocalMem local_memory_window st.localMem a.name cycle response
  let mem ← seqAddMemory cm window_size max_context_chars st.mem a.name response
  match parse response with
  | some p =>
    let fwd' := some (p.additional_instruction.getD "")
    if has_exit && p.terminate_loop.getD false then
      Except.ok (⟨mem, localMem, false,
        st.trace ++ [⟨cycle, stepNo, a.name, response, true⟩]⟩, fwd')
    else
      Except.ok (⟨mem, localMem, st.loop_flag,
        st.trace ++ [⟨cycle, stepNo, a.name, response, false⟩]⟩, fwd')
  | none =>
    Except.ok (⟨mem, localMem, st.loop_flag,
      st.trace ++ [⟨cycle, stepNo, a.name, response, false⟩]⟩, none)

/-- The inner `for step_index, agent in enumerate(...)` loop
(loop_agent.py lines 108-156), with the `if not self.loop_flag: break` check
at the top of the body (line 111; the `break` after setting the flag at line
152 is subsumed by that check on the next agent). -/
def flagAgents (cycle : Nat) :
    Nat → List FAgent → FlagSt → Option String →
    Except PyErr (FlagSt × Option String)
  | _, [], st, fwd => Except.ok (st, fwd)
  | stepNo, a :: rest, st, fwd =>
    if st.loop_flag then do
      let (st', fwd') ← flagStep parse cm window_size max_context_chars
        local_memory_window exitIds user_query cycle stepNo a st fwd
      flagAgents cycle (stepNo + 1) rest st' fwd'
    else Except.ok (st, fwd)

/-- The outer `while self.loop_flag and loop_cycle < self.max_loops` loop
(loop_agent.py lines 104-156): the first argument is the remaining fuel
`max_loops - loop_cycle`, the second the number of completed cycles. -/
def flagCycles (agents : List FAgent) :
    Nat → Nat → FlagSt → Option String →
    Except PyErr (FlagSt × Option String)
  | 0, _, st, fwd => Except.ok (st, fwd)
  | n + 1, done, st, fwd =>
    if st.loop_flag then do
      let (st', fwd') ← flagAgents parse cm window_size max_context_chars
        local_memory_window exitIds user_query (done + 1) 1 agents st fwd
      flagCycles agents n (done + 1) st' fwd'
    else Except.ok (st, fwd)

/-- The flag-variant run result: the returned string and the final state. -/
structure FlagResult where
  result : String
  st : FlagSt
deriving DecidableEq, Repr

/-- Model of `LoopSequentialAgent.run` (loop_agent.py lines 84-161): reset memories,
local memories and the loop flag, run the cycles, return the last long-memory
output (or `""`). -/
def flagRun (agents : List FAgent) (max_loops : Nat) :
    Except PyErr FlagResult := do
  let st0 : FlagSt :=
    { mem := ⟨[], []⟩
      localMem := agents.foldl (fun d a => dictInsert d a.name []) []
      loop_flag := true
      trace := [] }
  let (st, _) ← flagCycles parse cm window_size max_context_chars
    local_memory_window exitIds user_query agents max_loops 0 st0 none
  Except.ok
    { result := match st.mem.long.getLast? with
        | some e => e.2
        | none => ""
      st := st }

end FlagLoop

/-! ## Capability-injection loop orchestrator: `LoopAgent`
(src/src/arctic_orchestra/Agents/loop_agent.py)

Agents here are mutable `arctic_orchestra.Agents.base.Agent` objects: the
orchestrator temporarily rewrites their `tools` / `instruction` /
`tool_schemas` fields around each invocation.  A tool value is its
introspection data (`PyFn`), which is what `_build_tool_schemas` consumes;
`deepcopy` of the registry is the identity on these values.  An agent's
dispatch behaviour is abstracted to a function of the registry and instruction
it currently holds and the structured input; it reports the produced text (or
a raised exception, caught at loop_agent.py lines 191-194), whether the
injected `exit_loop` tool was called during the invocation (which is what sets
`control["should_exit"]`; impossible unless the tool was injected, and the
loop additionally guards the check with `allowed`), and the reason passed to
it.  `str(agent_input)` for the history preview is abstracted to a function
parameter `reprInput`.  Each invocation appends one `run_log` entry as in the
source, extended with ghost fields (`idx`, `signaled`, `toolsAtCall`,
`instrAtCall`) recording the agent's list position, whether this invocation
signalled exit, and the registry/instruction the agent held while running;
the ghost fields feed back into nothing. -/

/-- The introspection data of the closure made by `LoopAgent._make_exit_tool`
(loop_agent.py lines 47-58): `exit_loop(reason: str = None, payload: Any = None)`
with its `__doc__` set at line 57. -/
def exitLoopFn : PyFn :=
  { doc := some "Tool allowing this agent to exit the loop early."
    params := [⟨"reason", some .pstr, true⟩, ⟨"payload", some .other, true⟩] }

/-- The structured agent input (loop_agent.py lines 182-189). -/
structure CapInput where
  original_query : String
  iteration : Nat
  agent_name : String
  short_memory : List CapShort
  long_memory : List CapLong
  per_model_history : List HistE
deriving DecidableEq, Repr

/-- The observable outcome of one `agent.run` invocation under the
capability-injection orchestrator. -/
structure BehResult where
  outcome : Except String String
  callsExit : Bool
  reason : Option String
deriving Repr

/-- A mutable `Agent` object as the LoopAgent sees it. -/
structure CAgent where
  name : String
  tools : List (String × PyFn)
  instruction : String
  tool_schemas : List ToolSchema
  behave : List (String × PyFn) → String → CapInput → BehResult

/-- One `run_log` entry (loop_agent.py lines 203-209) plus ghost fields. -/
structure CapLogE where
  iteration : Nat
  agent : String
  input : CapInput
  output : String
  idx : Nat
  signaled : Bool
  toolsAtCall : List (String × PyFn)
  instrAtCall : String
deriving DecidableEq, Repr

/-- The LoopAgent run state: the agent objects (mutated in place around each
invocation) and the run-scoped memories, log and exit bookkeeping. -/
structure CapSt where
  agents : List CAgent
  mem : CapMem
  hist : List (String × List HistE)
  run_log : List CapLogE
  exited : Bool
  exit_reason : Option String
  final_output : String

section CapLoop

variable (cm : Option (String → Except Unit String))
variable (window_size max_history_per_model max_model_history_chars : Nat)
variable (exit_allowed_names : List String) (exit_instructions : String)
variable (reprInput : CapInput → String) (user_query : String)

/-- One iteration of the `for agent in self.agents` body
(loop_agent.py lines 141-229) for the agent at list position `i`: save the
original registry and instruction, inject the exit tool and exit instructions
when the agent's name is in `exit_allowed_names` (rebuilding the schema
cache), run the agent (an exception becomes the
`"Agent execution error: ..."` text), restore the saved registry and
instruction and rebuild the schema cache, record run log / per-model history /
shared memory, and finally flip to the exited state when an exit-privileged
invocation called the injected tool. -/
def capStep (iteration i : Nat) (st : CapSt) : CapSt :=
  match st.agents.get? i with
  | none => st
  | some agent =>
    let agent_name := agent.name
    let hist0 := dictSetdefault st.hist agent_name []
    let original_tools := agent.tools
    let original_instruction := agent.instruction
    let allowed := exit_allowed_names.contains agent_name
    let runTools :=
      if allowed then dictInsert original_tools "exit_loop" exitLoopFn
      else original_tools
    let runInstruction :=
      if allowed && exit_instructions ≠ "" then
        original_instruction ++ "\n\n" ++ "IMPORTANT: " ++ exit_instructions
      else original_instruction
    let input : CapInput :=
      { original_query := user_query
        iteration := iteration
        agent_name := agent_name
        short_memory := st.mem.short
        long_memory := st.mem.long
        per_model_history := dictGet hist0 agent_name [] }
    let r := agent.behave runTools runInstruction input
    let response :=
      match r.outcome with
      | .ok s => s
      | .error e => "Agent execution error: " ++ e
    let restored : CAgent :=
      { agent with
          tools := original_tools
          instruction := original_instruction
          tool_schemas := build_tool_schemas original_tools }
    let agents' := st.agents.set i restored
    let entry : CapLogE :=
      { iteration := iteration
        agent := agent_name
        input := input
        output := response
        idx := i
        signaled := allowed && r.callsExit
        toolsAtCall := runTools
        instrAtCall := runInstruction }
    let hist1 := dictInsert hist0 agent_name
      (enforceHistLimits max_history_per_model max_model_history_chars
        (dictGet hist0 agent_name [] ++
          [⟨iteration, (reprInput input).take 1000, response.take 2000⟩]))
    let mem' := capAddMemory cm window_size st.mem agent_name response
    if allowed && r.callsExit then
      { agents := agents'
        mem := mem'
        hist := hist1
        run_log := st.run_log ++ [entry]
        exited := true
        exit_reason := r.reason
        final_output :=
          "Loop exited by agent \x27" ++ agent_name ++ "\x27 at iteration " ++
          toString iteration ++ ".\nReason: " ++ r.reason.getD "None" ++
          "\nLast agent response: " ++ response }
    else
      { agents := agents'
        mem := mem'
        hist := hist1
        run_log := st.run_log ++ [entry]
        exited := st.exited
        exit_reason := st.exit_reason
        final_output := st.final_output }

/-- The inner `for agent in self.agents` loop (loop_agent.py lines 141-229)
over agent list positions, with the `break` at line 229 modelled by stopping
as soon as the exited flag is set. -/
def capAgents (iteration : Nat) : List Nat → CapSt → CapSt
  | [], st => st
  | i :: rest, st =>
    let st' := capStep cm window_size max_history_per_model
      max_model_history_chars exit_allowed_names exit_instructions reprInput
      user_query iteration i st
    if st'.exited then st' else capAgents iteration rest st'

/-- The outer `for iteration in range(1, self.max_iterations + 1)` loop
(loop_agent.py lines 140-232) with the `if exited: break` at lines 231-232;
the first argument is the remaining iteration count. -/
def capIters : Nat → Nat → CapSt → CapSt
  | 0, _, st => st
  | n + 1, iteration, st =>
    let st' := capAgents cm window_size max_history_per_model
      max_model_history_chars exit_allowed_names exit_instructions reprInput
      user_query iteration (List.range st.agents.length) st
    if st'.exited then st'
    else capIters n (iteration + 1) st'

/-- Model of `LoopAgent.run` (loop_agent.py lines 128-245): reset memories and history,
run the iterations starting at 1, and when the loop was not exited set the
final output to the last logged output (or `""`). -/
def capRun (agents : List CAgent) (max_iterations : Nat) : CapSt :=
  let st0 : CapSt :=
    { agents := agents
      mem := ⟨[], []⟩
      hist := []
      run_log := []
      exited := false
      exit_reason := none
      final_output := "" }
  let st := capIters cm window_size max_history_per_model
    max_model_history_chars exit_allowed_names exit_instructions reprInput
    user_query max_iterations 1 st0
  if st.exited then st
  else
    { st with
        final_output :=
          match st.run_log.getLast? with
          | some e => e.output
          | none => "" }

end CapLoop

/-- The fields of an agent object the LoopAgent never durably changes: name,
registry, instruction and dispatch behaviour (the schema cache, by contrast,
is rebuilt).  Used to state that agents are restored across invocations. -/
def agentCore (a : CAgent) :
    String × List (String × PyFn) × String ×
      (List (String × PyFn) → String → CapInput → BehResult) :=
  (a.name, a.tools, a.instruction, a.behave)

/-! ## Concrete runs used in counterexamples and witnesses -/

/-- SequentialAgent controller, `window_size = 2`, `max_context_chars = 8000`,
three small records: the state after the third `record` call. -/
def c4run : Except PyErr SeqMem :=
  seqRecordAll none 2 8000 ⟨[], []⟩ [("a1", "x"), ("a2", "y"), ("a3", "z")]

/-- SequentialAgent controller, `window_size = 5`, `max_context_chars = 50`:
the (reachable) state after recording a 60-char output, whose serialized short
memory already exceeds the limit. -/
def c8mid : SeqMem :=
  match seqRecordAll none 5 50 ⟨[], []⟩
      [("a", "xxxxxxxxxxxxxxxxxxxxxxxxxxxxxxxxxxxxxxxxxxxxxxxxxxxxxxxxxxxx")] with
  | .ok m => m
  | .error _ => ⟨[], []⟩

/-- The next `record` call on `c8mid`, with a 100-char output. -/
def c8fin : Except PyErr SeqMem :=
  seqAddMemory none 5 50 c8mid "b"
    "yyyyyyyyyyyyyyyyyyyyyyyyyyyyyyyyyyyyyyyyyyyyyyyyyyyyyyyyyyyyyyyyyyyyyyyyyyyyyyyyyyyyyyyyyyyyyyyyyyyy"

/-- A compression collaborator that raises on every call. -/
def c9cm : Option (List SMEntry → Except Unit String) :=
  some (fun _ => Except.error ())

/-- SequentialAgent controller, `window_size = 1`, `max_context_chars = 128`,
compression collaborator raising on every call: the first two records succeed
(fallback path), leaving a `compressed` entry in short memory. -/
def c9run2 : Except PyErr SeqMem :=
  seqRecordAll c9cm 1 128 ⟨[], []⟩
    [("a", "xxxxxxxxxx"), ("b", "yyyyyyyyyyyyyyyyyyyyyyyyyyyyyyyyyyyyyyyyyyyyyyyyyyyyyyyyyyyy")]

/-- The same run continued with a third record: enforcement now compresses a
slice containing the `compressed` entry and the fallback join raises
`KeyError`. -/
def c9run3 : Except PyErr SeqMem :=
  seqRecordAll c9cm 1 128 ⟨[], []⟩
    [("a", "xxxxxxxxxx"), ("b", "yyyyyyyyyyyyyyyyyyyyyyyyyyyyyyyyyyyyyyyyyyyyyyyyyyyyyyyyyyyy"),
     ("d", "zzzzzzzzzz")]

/-- Named string arguments, the concrete argument type used in dispatch
witnesses. -/
abbrev ArgsW : Type := List (String × String)

/-- A concrete argument parser: accepts exactly the transport payload of the
spec scenario, fails on everything else. -/
def c6parse : String → Option ArgsW := fun s =>
  if s = "\x7b\x22city\x22: \x22Paris\x22, \x22mode\x22: \x22airship\x22\x7d" then
    some [("city", "Paris"), ("mode", "airship")]
  else none

/-- A transport tool that rejects every mode outside its closed set (modelled
on `local_transport` of `src/Agents/test.py`): it raises, so dispatch must
recover per-call. -/
def c6transport : ArgsW → Except String String := fun args =>
  Except.error ("Invalid mode \x27" ++ dictGet args "mode" "" ++
    "\x27. Choose from: taxi, bus, train, metro, subway")

/-- The three tool calls of the dispatch witness: malformed JSON arguments, an
unregistered tool name, and a registered tool that raises. -/
def c6calls : List ToolCall :=
  [⟨some "call_1", "local_transport", "not json"⟩,
   ⟨some "call_2", "teleport", "\x7b\x7d"⟩,
   ⟨some "call_3", "local_transport",
    "\x7b\x22city\x22: \x22Paris\x22, \x22mode\x22: \x22airship\x22\x7d"⟩]

/-- First-call response of the dispatch witness: requests the three calls. -/
def c6c1 : List Msg → Except String LLMResp :=
  fun _ => Except.ok ⟨[⟨⟨"", c6calls⟩⟩]⟩

/-- Final-call response of the dispatch witness. -/
def c6c2 : List Msg → Except String LLMResp :=
  fun _ => Except.ok ⟨[⟨⟨"final answer", []⟩⟩]⟩

/-- A first model call that always raises, for the C10 witness. -/
def c10c1 : List Msg → Except String LLMResp :=
  fun _ => Except.error "boom"

/-- An introspection model of the repository's `local_transport` tool
(`src/Agents/test.py` lines 103-127): two `str`-hinted parameters, both with
defaults. Used as concrete witness data. -/
def localTransportFn : PyFn :=
  { doc := some "Arranges local transportation in the city."
    params := [⟨"city", some .pstr, true⟩, ⟨"mode", some .pstr, true⟩] }

/-- A concrete tool signature exercising every schema-builder branch:
`self`, a dunder parameter, a required unhinted parameter, a required
`int`-hinted parameter and a defaulted `str`-hinted parameter. -/
def c5fn : PyFn :=
  { doc := none
    params :=
      [⟨"self", none, false⟩,
       ⟨"__meta", some .pint, false⟩,
       ⟨"query", none, false⟩,
       ⟨"count", some .pint, false⟩,
       ⟨"mode", some .pstr, true⟩] }

/-- A concrete agent whose invocation raises, for the save/restore witness:
it carries one registered tool and a schema cache built from it. -/
def c3agent : CAgent :=
  { name := "a1"
    tools := [("local_transport", localTransportFn)]
    instruction := "base instruction"
    tool_schemas := build_tool_schemas [("local_transport", localTransportFn)]
    behave := fun _ _ _ => ⟨Except.error "ValueError", false, none⟩ }

/-- A LoopAgent state holding just `c3agent`, about to run it. -/
def c3st : CapSt :=
  { agents := [c3agent]
    mem := ⟨[], []⟩
    hist := []
    run_log := []
    exited := false
    exit_reason := none
    final_output := "" }

/-- A non-privileged agent with an empty registry, for the isolation witness. -/
def c2a1 : CAgent :=
  { name := "a1"
    tools := []
    instruction := "i1"
    tool_schemas := []
    behave := fun _ _ _ => ⟨Except.ok "r1", false, none⟩ }

/-- A privileged agent (its name goes into the exit-allowed set) that calls
the injected exit tool, for the isolation and exit witnesses. -/
def c2a2 : CAgent :=
  { name := "a2"
    tools := []
    instruction := "i2"
    tool_schemas := []
    behave := fun _ _ _ => ⟨Except.ok "r2", true, some "done"⟩ }

/-- A concrete capability-injection run: two agents, `a2` exit-privileged and
calling the injected tool on cycle 1. -/
def c2run : CapSt :=
  capRun none 2 20 2000 ["a2"] "stop when done" (fun _ => "") "q"
    [c2a1, c2a2] 2

/-- Scenario parse function: recognizes only the distinguished `"STOP"`
response as structured output carrying `terminate_loop = true`. -/
def c1parse : String → Option ParsedOut := fun s =>
  if s = "STOP" then some ⟨some "", some true⟩ else none

/-- Scenario agent 1: plain output, never terminates. -/
def c1a1 : FAgent := ⟨1, "agent1", fun _ => "A1"⟩

/-- Scenario agent 2: always emits the structured terminate output. -/
def c1a2 : FAgent := ⟨2, "agent2", fun _ => "STOP"⟩

/-- The C1 scenario run: two agents, privileged set `{agent2}` (by object
identity), `max_loops = 2`; `agent2` emits `terminate_loop = true` on
cycle 1. -/
def c1run : Except PyErr FlagResult :=
  flagRun c1parse none 2 8000 5 [2] "q" [c1a1, c1a2] 2

/-- The state of the C1 scenario run (it succeeds; the fallback value is never
used). -/
def c1res : FlagResult :=
  match c1run with
  | .ok r => r
  | .error _ => ⟨"", ⟨⟨[], []⟩, [], true, []⟩⟩

/-- A parse function that never succeeds: with it no agent can ever signal
exit, exercising the exhaustion path. -/
def c7parse : String → Option ParsedOut := fun _ => none

/-- The C7 flag-variant scenario: same two agents, same privileged set, but no
response ever parses, so the loop must run all `max_loops = 2` cycles. -/
def c7run : Except PyErr FlagResult :=
  flagRun c7parse none 2 8000 5 [2] "q" [c1a1, c1a2] 2

/-- The state of the C7 scenario run. -/
def c7res : FlagResult :=
  match c7run with
  | .ok r => r
  | .error _ => ⟨"", ⟨⟨[], []⟩, [], true, []⟩⟩

/-- A privileged-by-name agent that never calls the exit tool, for the
exhaustion witness. -/
def c7capA2 : CAgent :=
  { c2a2 with behave := fun _ _ _ => ⟨Except.ok "r2", false, none⟩ }

/-- The C7 capability-variant scenario: the two isolation agents, neither
calling the exit tool, `max_iterations = 2`. -/
def c7capRun : CapSt :=
  capRun none 2 20 2000 ["a2"] "" (fun _ => "") "q" [c2a1, c7capA2] 2

/-! # Theorems -/

set_option maxRecDepth 16384

/-! ## Schema-builder characterization (claim C5) -/

theorem schemaRequired_eq (ps : List PyParam) :
    schemaRequired ps =
      (ps.filter (fun p => !excludedParam p && !p.hasDefault)).map
        (fun p => p.name) := by
  induction ps with
  | nil => rfl
  | cons p rest ih =>
    simp only [schemaRequired, List.filter_cons]
    by_cases hex : excludedParam p = true
    · simp [hex, ih]
    · simp only [Bool.not_eq_true] at hex
      by_cases hd : p.hasDefault = true
      · simp [hex, hd, ih]
      · simp only [Bool.not_eq_true] at hd
        simp [hex, hd, ih]

theorem schemaProps_eq (ps : List PyParam) :
    schemaProps ps =
      (ps.filter (fun p => !excludedParam p)).map
        (fun p =>
          (p.name,
            PropSchema.mk (get_type_name (p.hint.getD .pstr))
              ("Parameter " ++ p.name))) := by
  induction ps with
  | nil => rfl
  | cons p rest ih =>
    simp only [schemaProps, List.filter_cons]
    by_cases hex : excludedParam p = true
    · simp [hex, ih]
    · simp only [Bool.not_eq_true] at hex
      simp [hex, ih]

theorem excludedParam_false_iff (p : PyParam) :
    excludedParam p = false ↔ p.name ≠ "self" ∧ pyStartswith p.name "__" = false := by
  simp only [excludedParam, Bool.or_eq_false_iff, beq_eq_false_iff_ne]

/-- Claim C5: for every tool registry, schema generation produces one schema
per tool; each tool's `required` list contains exactly the (non-excluded)
parameter names that have no default value, independent of declaration order;
`self` and dunder-named parameters are excluded from the properties; every
non-excluded parameter appears in the properties with its mapped schema type;
and an unknown or absent type hint maps to the schema type `"string"`. -/
theorem C5_schema_required_exactly_defaultless :
    ∀ (tools : List (String × PyFn)) (n : String) (fn : PyFn),
      build_tool_schemas tools = tools.map (fun t => mkToolSchema t.1 t.2) ∧
      (∀ pn : String,
        pn ∈ (mkToolSchema n fn).required ↔
          ∃ p, p ∈ fn.params ∧ p.name = pn ∧ excludedParam p = false ∧
            p.hasDefault = false) ∧
      (∀ k ∈ (mkToolSchema n fn).properties.map Prod.fst,
        k ≠ "self" ∧ pyStartswith k "__" = false) ∧
      (∀ p, p ∈ fn.params → excludedParam p = false →
        (p.name,
          PropSchema.mk (get_type_name (p.hint.getD .pstr))
            ("Parameter " ++ p.name)) ∈ (mkToolSchema n fn).properties) ∧
      (∀ p : PyParam, (p.hint = none ∨ p.hint = some .other) →
        get_type_name (p.hint.getD .pstr) = "string") := by
  intro tools n fn
  refine ⟨rfl, ?_, ?_, ?_, ?_⟩
  · intro pn
    simp only [mkToolSchema, schemaRequired_eq, List.mem_map, List.mem_filter,
      Bool.and_eq_true, Bool.not_eq_true']
    constructor
    · rintro ⟨p, ⟨hp, hex, hd⟩, rfl⟩
      exact ⟨p, hp, rfl, hex, hd⟩
    · rintro ⟨p, hp, rfl, hex, hd⟩
      exact ⟨p, ⟨hp, hex, hd⟩, rfl⟩
  · intro k hk
    simp only [mkToolSchema, schemaProps_eq, List.map_map, List.mem_map,
      List.mem_filter, Bool.not_eq_true'] at hk
    obtain ⟨p, ⟨_, hex⟩, rfl⟩ := hk
    exact (excludedParam_false_iff p).mp hex
  · intro p hp hex
    simp only [mkToolSchema, schemaProps_eq, List.mem_map, List.mem_filter,
      Bool.not_eq_true']
    exact ⟨p, ⟨hp, hex⟩, rfl⟩
  · intro p hh
    rcases hh with h | h <;> simp [h, get_type_name]

/-- Witness for C5 at a concrete registry: `query` and `count` (no default)
are required, `self` and `__meta` are excluded, the defaulted `mode` appears
in the properties typed `"string"`, and the unhinted `query` is typed
`"string"`. -/
theorem C5_schema_required_witness :
    "query" ∈ (mkToolSchema "search" c5fn).required ∧
    ("mode",
      PropSchema.mk "string" "Parameter mode") ∈
        (mkToolSchema "search" c5fn).properties ∧
    ((mkToolSchema "search" c5fn).properties.map Prod.fst).all
      (fun k => !(k == "self") && !(pyStartswith k "__")) = true := by
  obtain ⟨-, hreq, hprops, hmem, htype⟩ :=
    C5_schema_required_exactly_defaultless [("search", c5fn)] "search" c5fn
  refine ⟨?_, ?_, ?_⟩
  · exact (hreq "query").mpr ⟨⟨"query", none, false⟩, by decide, rfl, by decide, rfl⟩
  · exact hmem ⟨"mode", some .pstr, true⟩ (by decide) (by decide)
  · rw [List.all_eq_true]
    intro k hk
    obtain ⟨hself, hdunder⟩ := hprops k hk
    simp [hself, hdunder]

/-! ## Short-memory bounds (claims C4 and C8) -/

/-- Claim C4, counterexample: on the SequentialAgent memory controller with
`window_size = 2` and `max_context_chars = 8000`, three small `record` calls
leave three entries in short memory — the claimed hard cap at `window_size`
entries after every record call does not hold for this controller. -/
theorem C4_seq_short_memory_exceeds_window :
    c4run.map (fun m => m.short.length) = Except.ok 3 ∧ ¬(3 ≤ 2) := by
  exact ⟨by decide, by decide⟩

/-- Claim C4, amended: the capability-injection LoopAgent memory controller
does bound short memory by `window_size` after every single `record` call,
whatever the incoming state (oldest entries evicted first); the SequentialAgent
controller only truncates on serialized-size overflow (see the
counterexample). -/
theorem C4_loopagent_short_memory_bounded :
    ∀ (cm : Option (String → Except Unit String)) (window_size : Nat)
      (mem : CapMem) (agent_name response : String),
      (capAddMemory cm window_size mem agent_name response).short.length ≤
        window_size := by
  intro cm w mem a r
  simp only [capAddMemory]
  set short := mem.short ++ [(⟨a, r.take 1000⟩ : CapShort)] with hshort
  by_cases h : short.length > w
  · simp only [if_pos h, List.length_drop]
    omega
  · simp only [if_neg h]
    omega

/-- Claim C8, counterexample: a reachable SequentialAgent state whose
serialized short memory (90 chars) exceeds `max_context_chars = 50`; the next
`record` call (100-char output, entry count still within `window_size = 5`)
leaves the serialized size at 220 chars — strictly larger, not smaller. -/
theorem C8_record_can_grow_serialized_size :
    (dumpsSM c8mid.short).length = 90 ∧ 50 < 90 ∧
    c8fin.map (fun m => (dumpsSM m.short).length) = Except.ok 220 ∧
    ¬(220 < 90) := by
  exact ⟨by decide, by decide, by decide, by decide⟩

/-- Claim C8, amended: when a `record` call on the SequentialAgent controller
is applied to a state whose short memory will be oversized after the append
(appending never shrinks the serialized size) and the appended entry count
exceeds a positive `window_size`, the enforcement path runs: all but the last
`window_size` entries are compressed into one entry (so at most
`window_size + 1` remain), and exactly the last `window_size` remain if the
result is still oversized.  The serialized size itself is not guaranteed to
shrink. -/
theorem C8_enforcement_bounds_entry_count :
    ∀ (cm : Option (List SMEntry → Except Unit String))
      (window_size max_context_chars : Nat) (mem : SeqMem)
      (agent_name output : String) (m' : SeqMem),
      0 < window_size →
      max_context_chars ≤
        (dumpsSM (mem.short ++ [SMEntry.out agent_name output])).length →
      window_size < mem.short.length + 1 →
      seqAddMemory cm window_size max_context_chars mem agent_name output =
        Except.ok m' →
      m'.short.length ≤ window_size + 1 := by
  intro cm w M mem a o m' hw hM hcount hrun
  simp only [seqAddMemory, enforceMemoryLimits, bind, Except.bind, pure,
    Except.pure] at hrun
  rw [if_neg (by omega)] at hrun
  rw [if_pos (by simpa using hcount)] at hrun
  rcases hcomp : compressMemory cm (pyDropLast (mem.short ++ [SMEntry.out a o]) w) with e | ct
  · rw [hcomp] at hrun; cases hrun
  · rw [hcomp] at hrun
    simp only [] at hrun
    set short1 := SMEntry.compressed ct :: pyTakeLast (mem.short ++ [SMEntry.out a o]) w
      with hshort1
    have hlen1 : short1.length ≤ w + 1 := by
      rw [hshort1]
      simp only [List.length_cons, pyTakeLast, if_neg (by omega : ¬ w = 0),
        List.length_drop]
      omega
    by_cases hbig : (dumpsSM short1).length > M
    · rw [if_pos hbig] at hrun
      cases hrun
      simp only [pyTakeLast, if_neg (by omega : ¬ w = 0), List.length_drop]
      omega
    · rw [if_neg hbig] at hrun
      cases hrun
      exact hlen1

/-- Witness for the amended C8 at a concrete oversized state: with
`window_size = 2`, `max_context_chars = 10` and three entries already present,
the fourth record leaves at most three entries. -/
theorem C8_enforcement_bounds_witness :
    (seqAddMemory none 2 10
        ⟨[], [SMEntry.out "a" "pppp", SMEntry.out "b" "qqqq", SMEntry.out "c" "rrrr"]⟩
        "d" "ssss").map (fun m => m.short.length) = Except.ok 2 ∧
      2 ≤ 2 + 1 := by
  have h2 : seqAddMemory none 2 10
      ⟨[], [SMEntry.out "a" "pppp", SMEntry.out "b" "qqqq", SMEntry.out "c" "rrrr"]⟩
      "d" "ssss" = Except.ok
        ⟨[("d", "ssss")], [SMEntry.out "c" "rrrr", SMEntry.out "d" "ssss"]⟩ := by decide
  refine ⟨by rw [h2]; rfl, ?_⟩
  have := C8_enforcement_bounds_entry_count none 2 10
    ⟨[], [SMEntry.out "a" "pppp", SMEntry.out "b" "qqqq", SMEntry.out "c" "rrrr"]⟩
    "d" "ssss"
    ⟨[("d", "ssss")], [SMEntry.out "c" "rrrr", SMEntry.out "d" "ssss"]⟩
    (by decide) (by decide) (by decide) h2
  omega

/-! ## Compression-failure handling (claim C9) -/

/-- Claim C9: with a compression collaborator that raises on every call, the
first overflow is indeed handled by the fallback path (raw outputs are
appended to long memory and the short memory is compressed+truncated without
raising) — but the very next overflow crashes: the fallback join subscripts
`e['agent']` on the `{"compressed": ...}` entry left behind by the previous
compression, and the resulting `KeyError` escapes `record`.  The claim (and
the code's own "safe fallback" intent) says `record` never raises. -/
theorem C9_record_raises_keyerror_after_compression :
    c9run2 = Except.ok
      ⟨[("a", "xxxxxxxxxx"),
        ("b", "yyyyyyyyyyyyyyyyyyyyyyyyyyyyyyyyyyyyyyyyyyyyyyyyyyyyyyyyyyyy")],
       [SMEntry.compressed "a: xxxxxxxxxx",
        SMEntry.out "b" "yyyyyyyyyyyyyyyyyyyyyyyyyyyyyyyyyyyyyyyyyyyyyyyyyyyyyyyyyyyy"]⟩ ∧
    c9run3 = Except.error ⟨"KeyError"⟩ := by
  exact ⟨by decide, by decide⟩

/-! ## Dispatch engine (claims C6 and C10) -/

/-- Claim C6: in one dispatch whose first model response requests tool calls,
every per-call failure is recovered in place — arguments that fail JSON
parsing execute the tool with the empty-argument payload, an unregistered tool
name yields the per-call "not registered" error string as that call's result,
a tool that raises yields the per-call "Error executing tool" string — and the
dispatch still performs the final model call over the extended message list
(assistant message plus one tool-result message per call), never aborting the
invocation because of a per-call failure. -/
theorem C6_dispatch_recovers_per_call_failures :
    ∀ {A : Type} (completion1 completion2 : List Msg → Except String LLMResp)
      (parseArgs : String → Option A) (emptyArgs : A)
      (tools : List (String × (A → Except String String)))
      (model_name identity instruction : String) (st : AgentRunSt)
      (user_input : String) (history : List Msg)
      (resp : LLMResp) (choice : Choice) (rest : List Choice),
      completion1 (dispatchMessages identity instruction user_input history) =
        Except.ok resp →
      resp.choices = choice :: rest →
      choice.message.tool_calls ≠ [] →
      (∀ tc ∈ choice.message.tool_calls,
        (parseArgs tc.args = none →
          execToolCall parseArgs emptyArgs tools tc =
            execTool tools tc.fname emptyArgs) ∧
        (lookupTool tools tc.fname = none →
          execToolCall parseArgs emptyArgs tools tc =
            "Error executing tool " ++ tc.fname ++ ": Tool " ++ tc.fname ++
              " is not registered.") ∧
        (∀ f e, lookupTool tools tc.fname = some f →
          f ((parseArgs tc.args).getD emptyArgs) = Except.error e →
          execToolCall parseArgs emptyArgs tools tc =
            "Error executing tool " ++ tc.fname ++ ": " ++ e)) ∧
      agentRun completion1 completion2 parseArgs emptyArgs tools model_name
          identity instruction st user_input history =
        (match completion2 (dispatchMessages identity instruction user_input
            history ++ [Msg.assistant choice.message] ++
            choice.message.tool_calls.map
              (toolResultMsg parseArgs emptyArgs tools)) with
         | .error e => Except.error e
         | .ok fr =>
           match fr.choices with
           | [] =>
             Except.ok ("LLM Execution Error: LLM returned an empty response (no choices) in the final call after tool execution. Model: "
               ++ model_name
               ++ ". Please check the logs for potential content filtering or model prediction errors.", st)
           | c :: _ =>
             Except.ok (c.message.content,
               { st with final_response := c.message.content })) := by
  intro A completion1 completion2 parseArgs emptyArgs tools model_name identity
    instruction st user_input history resp choice rest h1 h2 hne
  refine ⟨?_, ?_⟩
  · intro tc _
    refine ⟨?_, ?_, ?_⟩
    · intro hp
      simp only [execToolCall, hp, Option.getD]
    · intro hl
      simp only [execToolCall, execTool, hl]
    · intro f e hl hf
      simp only [execToolCall, execTool, hl, hf]
  · rcases htc : choice.message.tool_calls with _ | ⟨tc, tcs⟩
    · exact absurd htc hne
    · simp only [agentRun, h1, h2, htc, List.isEmpty_cons, Bool.false_eq_true,
        if_false, List.map_cons, List.append_assoc, List.cons_append,
        List.nil_append]

/-- Witness for C6: the transport scenario — malformed arguments, an
unregistered tool and a raising tool are each recovered as per-call result
strings, and the run still produces the final model answer. -/
theorem C6_dispatch_recovers_witness :
    agentRun c6c1 c6c2 c6parse [] [("local_transport", c6transport)] "m" "id"
        "ins" ⟨"prev"⟩ "task" [] = Except.ok ("final answer", ⟨"final answer"⟩) ∧
    execToolCall c6parse [] [("local_transport", c6transport)]
        ⟨some "call_2", "teleport", "\x7b\x7d"⟩ =
      "Error executing tool teleport: Tool teleport is not registered." := by
  have h := C6_dispatch_recovers_per_call_failures c6c1 c6c2 c6parse []
    [("local_transport", c6transport)] "m" "id" "ins" ⟨"prev"⟩ "task" []
    ⟨[⟨⟨"", c6calls⟩⟩]⟩ ⟨⟨"", c6calls⟩⟩ [] rfl rfl (by decide)
  refine ⟨?_, ?_⟩
  · rw [h.2]
    rfl
  · exact (h.1 ⟨some "call_2", "teleport", "\x7b\x7d"⟩ (by decide)).2.1 rfl

/-- Claim C10: on the two failing paths of `Agent.run` — the first model call
raising (returned as an `"LLM Execution Error"` string) and the final model
call after tool execution returning no choices — the agent state, hence its
`final_response` field, is returned unchanged; and every normally returning
invocation either leaves `final_response` untouched or sets it to exactly the
returned text (the only two successful return paths). -/
theorem C10_final_response_unchanged_on_failure :
    ∀ {A : Type} (completion1 completion2 : List Msg → Except String LLMResp)
      (parseArgs : String → Option A) (emptyArgs : A)
      (tools : List (String × (A → Except String String)))
      (model_name identity instruction : String) (st : AgentRunSt)
      (user_input : String) (history : List Msg),
      (∀ e, completion1 (dispatchMessages identity instruction user_input
          history) = Except.error e →
        agentRun completion1 completion2 parseArgs emptyArgs tools model_name
          identity instruction st user_input history =
            Except.ok ("LLM Execution Error: " ++ e, st)) ∧
      (∀ resp choice rest fr,
        completion1 (dispatchMessages identity instruction user_input history) =
          Except.ok resp →
        resp.choices = choice :: rest →
        choice.message.tool_calls ≠ [] →
        completion2 (dispatchMessages identity instruction user_input history ++
          [Msg.assistant choice.message] ++
          choice.message.tool_calls.map
            (toolResultMsg parseArgs emptyArgs tools)) = Except.ok fr →
        fr.choices = [] →
        agentRun completion1 completion2 parseArgs emptyArgs tools model_name
          identity instruction st user_input history =
            Except.ok ("LLM Execution Error: LLM returned an empty response (no choices) in the final call after tool execution. Model: "
              ++ model_name
              ++ ". Please check the logs for potential content filtering or model prediction errors.", st)) ∧
      (∀ r st',
        agentRun completion1 completion2 parseArgs emptyArgs tools model_name
          identity instruction st user_input history = Except.ok (r, st') →
        st'.final_response = st.final_response ∨
          st' = { st with final_response := r }) := by
  intro A completion1 completion2 parseArgs emptyArgs tools model_name identity
    instruction st user_input history
  refine ⟨?_, ?_, ?_⟩
  · intro e he
    simp only [agentRun, he]
  · intro resp choice rest fr h1 h2 hne h3 h4
    rcases htc : choice.message.tool_calls with _ | ⟨tc, tcs⟩
    · exact absurd htc hne
    · simp only [htc, List.append_assoc, List.cons_append, List.nil_append,
        List.map_cons] at h3
      simp only [agentRun, h1, h2, htc, List.isEmpty_cons, Bool.false_eq_true,
        if_false, List.map_cons, List.append_assoc, List.cons_append,
        List.nil_append, h3, h4]
  · intro r st' hrun
    simp only [agentRun] at hrun
    split at hrun
    · cases hrun
      exact Or.inl rfl
    · split at hrun
      · cases hrun
      · split at hrun
        · cases hrun
          exact Or.inr rfl
        · split at hrun
          · cases hrun
          · split at hrun
            · cases hrun
              exact Or.inl rfl
            · cases hrun
              exact Or.inr rfl

/-- Witness for C10: with a first model call that always raises, the run
returns the error string and the pre-invocation `final_response` intact. -/
theorem C10_final_response_witness :
    agentRun c10c1 c6c2 c6parse [] [("local_transport", c6transport)] "m" "id"
        "ins" ⟨"prev"⟩ "task" [] =
      Except.ok ("LLM Execution Error: boom", ⟨"prev"⟩) := by
  exact (C10_final_response_unchanged_on_failure c10c1 c6c2 c6parse []
    [("local_transport", c6transport)] "m" "id" "ins" ⟨"prev"⟩ "task" []).1
    "boom" rfl

/-! ## Capability-injection loop: save/restore and isolation
(claims C1, C2, C3, C7) -/

theorem list_map_set_eq {α : Type} {β : Type} (f : α → β) (l : List α)
    (i : Nat) (a b : α) (hget : l.get? i = some a) (hf : f b = f a) :
    (l.set i b).map f = l.map f := by
  apply List.ext_get?
  intro n
  rw [List.get?_map, List.get?_map]
  by_cases hn : n = i
  · subst hn
    obtain ⟨hlt, -⟩ := List.get?_eq_some.mp hget
    rw [List.get?_eq_getElem?, List.getElem?_set_self hlt, hget]
    simp [hf]
  · rw [List.get?_eq_getElem?, List.getElem?_set_ne (fun h => hn h.symm),
      ← List.get?_eq_getElem?]

/-- Full characterization of one `capStep`: invalid index leaves the state
unchanged; otherwise exactly one run-log entry is appended, the agent objects
keep their name/registry/instruction/behaviour, the exited flag is the old one
or-ed with the new entry's exit signal, and the entry records the registry and
instruction the agent held during the call (injected for privileged agents,
untouched otherwise). -/
theorem capStep_spec (cm : Option (String → Except Unit String))
    (window_size max_history_per_model max_model_history_chars : Nat)
    (exit_allowed_names : List String) (exit_instructions : String)
    (reprInput : CapInput → String) (user_query : String)
    (iteration i : Nat) (st : CapSt) :
    (st.agents.get? i = none ∧
      capStep cm window_size max_history_per_model max_model_history_chars
        exit_allowed_names exit_instructions reprInput user_query iteration
        i st = st) ∨
    (∃ agent entry,
      st.agents.get? i = some agent ∧
      (capStep cm window_size max_history_per_model max_model_history_chars
          exit_allowed_names exit_instructions reprInput user_query iteration
          i st).run_log = st.run_log ++ [entry] ∧
      (capStep cm window_size max_history_per_model max_model_history_chars
          exit_allowed_names exit_instructions reprInput user_query iteration
          i st).agents.map agentCore = st.agents.map agentCore ∧
      (capStep cm window_size max_history_per_model max_model_history_chars
          exit_allowed_names exit_instructions reprInput user_query iteration
          i st).exited = (st.exited || entry.signaled) ∧
      entry.iteration = iteration ∧
      entry.agent = agent.name ∧
      entry.idx = i ∧
      (∃ tls ins inp, entry.signaled =
        (exit_allowed_names.contains agent.name &&
          (agent.behave tls ins inp).callsExit)) ∧
      (entry.signaled = true → exit_allowed_names.contains agent.name = true) ∧
      entry.toolsAtCall =
        (if exit_allowed_names.contains agent.name then
          dictInsert agent.tools "exit_loop" exitLoopFn
        else agent.tools) ∧
      entry.instrAtCall =
        (if exit_allowed_names.contains agent.name && exit_instructions ≠ "" then
          agent.instruction ++ "\n\n" ++ "IMPORTANT: " ++ exit_instructions
        else agent.instruction)) := by
  rcases hget : st.agents.get? i with _ | agent
  · left
    refine ⟨rfl, ?_⟩
    simp only [capStep, hget]
  · right
    simp only [capStep, hget]
    set allowed := exit_allowed_names.contains agent.name with hallow
    set input : CapInput :=
      { original_query := user_query
        iteration := iteration
        agent_name := agent.name
        short_memory := st.mem.short
        long_memory := st.mem.long
        per_model_history :=
          dictGet (dictSetdefault st.hist agent.name []) agent.name [] }
      with hinput
    set r := agent.behave
      (if allowed then dictInsert agent.tools "exit_loop" exitLoopFn
        else agent.tools)
      (if allowed && exit_instructions ≠ "" then
        agent.instruction ++ "\n\n" ++ "IMPORTANT: " ++ exit_instructions
      else agent.instruction)
      input with hr
    set response := (match r.outcome with
      | Except.ok s => s
      | Except.error e => "Agent execution error: " ++ e) with hresp
    have hcore : (st.agents.set i
        { agent with
            tools := agent.tools
            instruction := agent.instruction
            tool_schemas := build_tool_schemas agent.tools }).map agentCore =
        st.agents.map agentCore :=
      list_map_set_eq agentCore st.agents i agent _ hget rfl
    refine ⟨agent,
      { iteration := iteration
        agent := agent.name
        input := input
        output := response
        idx := i
        signaled := allowed && r.callsExit
        toolsAtCall :=
          if allowed then dictInsert agent.tools "exit_loop" exitLoopFn
          else agent.tools
        instrAtCall :=
          if allowed && exit_instructions ≠ "" then
            agent.instruction ++ "\n\n" ++ "IMPORTANT: " ++ exit_instructions
          else agent.instruction }, rfl, ?_, ?_, ?_, rfl, rfl, rfl,
      ⟨(if allowed then dictInsert agent.tools "exit_loop" exitLoopFn
          else agent.tools),
        (if allowed && exit_instructions ≠ "" then
          agent.instruction ++ "\n\n" ++ "IMPORTANT: " ++ exit_instructions
        else agent.instruction), input, rfl⟩, ?_, ?_, ?_⟩
    · by_cases hsig : (allowed && r.callsExit) = true
      · rw [if_pos hsig]
      · rw [if_neg hsig]
    · by_cases hsig : (allowed && r.callsExit) = true
      · rw [if_pos hsig]
        exact hcore
      · rw [if_neg hsig]
        exact hcore
    · by_cases hsig : (allowed && r.callsExit) = true
      · rw [if_pos hsig]
        simp [hsig]
      · rw [if_neg hsig]
        simp only [Bool.not_eq_true] at hsig
        simp [hsig]
    · intro h
      simp only [Bool.and_eq_true] at h
      exact h.1
    · rfl
    · rfl

/-- Claim C3: after every LoopAgent invocation — privileged or not, and
whether the agent's dispatch returned normally or raised (the quantification
over `st` covers agents whose `behave` yields an `Except.error` outcome) — the
agent object holds its pre-invocation tool registry and instruction text, and
its tool-schema cache has been rebuilt from that restored registry. -/
theorem C3_registry_instruction_reverted_schemas_rebuilt :
    ∀ (cm : Option (String → Except Unit String))
      (window_size max_history_per_model max_model_history_chars : Nat)
      (exit_allowed_names : List String) (exit_instructions : String)
      (reprInput : CapInput → String) (user_query : String)
      (iteration i : Nat) (st : CapSt) (agent : CAgent),
      st.agents.get? i = some agent →
      ∃ restored,
        (capStep cm window_size max_history_per_model max_model_history_chars
            exit_allowed_names exit_instructions reprInput user_query iteration
            i st).agents.get? i = some restored ∧
        restored.tools = agent.tools ∧
        restored.instruction = agent.instruction ∧
        restored.tool_schemas = build_tool_schemas agent.tools := by
  intro cm w mh mhc ean ei ri uq iteration i st agent hget
  obtain ⟨hlt, -⟩ := List.get?_eq_some.mp hget
  refine ⟨{ agent with
      tools := agent.tools
      instruction := agent.instruction
      tool_schemas := build_tool_schemas agent.tools }, ?_, rfl, rfl, rfl⟩
  simp only [capStep, hget]
  repeat' split
  all_goals rw [List.get?_eq_getElem?, List.getElem?_set_self hlt]

/-- Witness for C3 at a concrete state: a privileged agent (so the injection
path runs) whose invocation raises is restored exactly, with its schema cache
rebuilt from the restored registry. -/
theorem C3_registry_reverted_witness :
    ((capStep none 2 20 2000 ["a1"] "call exit_loop to stop" (fun _ => "") "q"
        1 0 c3st).agents.get? 0).map
        (fun a => (a.tools, a.instruction, a.tool_schemas)) =
      some (c3agent.tools, c3agent.instruction,
        build_tool_schemas c3agent.tools) := by
  obtain ⟨restored, hg, ht, hi, hs⟩ :=
    C3_registry_instruction_reverted_schemas_rebuilt none 2 20 2000 ["a1"]
      "call exit_loop to stop" (fun _ => "") "q" 1 0 c3st c3agent rfl
  rw [hg]
  simp [ht, hi, hs]

theorem core_get {l1 l2 : List CAgent} {i : Nat} {a : CAgent}
    (h : l1.map agentCore = l2.map agentCore) (hget : l1.get? i = some a) :
    ∃ b, l2.get? i = some b ∧ b.name = a.name ∧ b.tools = a.tools ∧
      b.instruction = a.instruction ∧ b.behave = a.behave := by
  have h1 : (l1.map agentCore).get? i = some (agentCore a) := by
    rw [List.get?_map, hget]
    rfl
  rw [h, List.get?_map] at h1
  rcases hg2 : l2.get? i with _ | b
  · rw [hg2] at h1
    cases h1
  · rw [hg2] at h1
    have hba : agentCore b = agentCore a := Option.some.inj h1
    simp only [agentCore, Prod.mk.injEq] at hba
    exact ⟨b, rfl, hba.1, hba.2.1, hba.2.2.1, hba.2.2.2⟩

theorem capAgents_isolation
    (cm : Option (String → Except Unit String)) (w mh mhc : Nat)
    (ean : List String) (ei : String) (ri : CapInput → String) (uq : String)
    (agents0 : List CAgent) (iteration : Nat) :
    ∀ (idxs : List Nat) (st : CapSt),
      st.agents.map agentCore = agents0.map agentCore →
      (∀ e ∈ st.run_log, ean.contains e.agent = false →
        ∃ a0, agents0.get? e.idx = some a0 ∧ e.toolsAtCall = a0.tools ∧
          e.instrAtCall = a0.instruction) →
      (capAgents cm w mh mhc ean ei ri uq iteration idxs st).agents.map
          agentCore = agents0.map agentCore ∧
      (∀ e ∈ (capAgents cm w mh mhc ean ei ri uq iteration idxs st).run_log,
        ean.contains e.agent = false →
        ∃ a0, agents0.get? e.idx = some a0 ∧ e.toolsAtCall = a0.tools ∧
          e.instrAtCall = a0.instruction) := by
  intro idxs
  induction idxs with
  | nil =>
    intro st hcore hlog
    exact ⟨hcore, hlog⟩
  | cons i rest ih =>
    intro st hcore hlog
    rcases capStep_spec cm w mh mhc ean ei ri uq iteration i st with
      ⟨-, hstep⟩ |
      ⟨agent, entry, hget, hlogstep, hcorestep, -, -, hagent, hidx, -,
        -, htools, hinstr⟩
    · simp only [capAgents, hstep]
      split
      · exact ⟨hcore, hlog⟩
      · exact ih st hcore hlog
    · have hcore' := hcorestep.trans hcore
      have hlog' : ∀ e ∈ (capStep cm w mh mhc ean ei ri uq iteration
          i st).run_log,
          ean.contains e.agent = false →
          ∃ a0, agents0.get? e.idx = some a0 ∧ e.toolsAtCall = a0.tools ∧
            e.instrAtCall = a0.instruction := by
        intro e he hcontains
        rw [hlogstep] at he
        rcases List.mem_append.mp he with he | he
        · exact hlog e he hcontains
        · have : e = entry := by simpa using he
          subst this
          rw [hagent] at hcontains
          obtain ⟨a0, hg0, -, htools0, hinstr0, -⟩ := core_get hcore hget
          refine ⟨a0, by rw [hidx]; exact hg0, ?_, ?_⟩
          · rw [htools, if_neg (by rw [hcontains]; simp), htools0]
          · rw [hinstr, if_neg (by rw [hcontains]; simp), hinstr0]
      simp only [capAgents]
      split
      · exact ⟨hcore', hlog'⟩
      · exact ih _ hcore' hlog'

theorem capIters_isolation
    (cm : Option (String → Except Unit String)) (w mh mhc : Nat)
    (ean : List String) (ei : String) (ri : CapInput → String) (uq : String)
    (agents0 : List CAgent) :
    ∀ (n iteration : Nat) (st : CapSt),
      st.agents.map agentCore = agents0.map agentCore →
      (∀ e ∈ st.run_log, ean.contains e.agent = false →
        ∃ a0, agents0.get? e.idx = some a0 ∧ e.toolsAtCall = a0.tools ∧
          e.instrAtCall = a0.instruction) →
      (∀ e ∈ (capIters cm w mh mhc ean ei ri uq n iteration st).run_log,
        ean.contains e.agent = false →
        ∃ a0, agents0.get? e.idx = some a0 ∧ e.toolsAtCall = a0.tools ∧
          e.instrAtCall = a0.instruction) := by
  intro n
  induction n with
  | zero =>
    intro iteration st _ hlog
    exact hlog
  | succ n ih =>
    intro iteration st hcore hlog
    obtain ⟨hcore', hlog'⟩ := capAgents_isolation cm w mh mhc ean ei ri uq
      agents0 iteration (List.range st.agents.length) st hcore hlog
    simp only [capIters]
    split
    · exact hlog'
    · exact ih (iteration + 1) _ hcore' hlog'

/-- Claim C2: in every capability-injection LoopAgent run, each invocation of
an agent whose name is outside the exit-allowed set observes exactly its
original registry and instruction text (no exit instructions appended), and —
whenever its original registry has no `"exit_loop"` key — its registry during
the invocation has no `"exit_loop"` key either, even if privileged agents were
mutated earlier in the same cycle. -/
theorem C2_nonprivileged_never_sees_exit_capability :
    ∀ (cm : Option (String → Except Unit String)) (w mh mhc : Nat)
      (ean : List String) (ei : String) (ri : CapInput → String) (uq : String)
      (agents0 : List CAgent) (max_iterations : Nat),
      ∀ e ∈ (capRun cm w mh mhc ean ei ri uq agents0
          max_iterations).run_log,
        ean.contains e.agent = false →
        ∃ a0, agents0.get? e.idx = some a0 ∧
          e.toolsAtCall = a0.tools ∧
          e.instrAtCall = a0.instruction ∧
          (a0.tools.any (fun p => p.1 == "exit_loop") = false →
            e.toolsAtCall.any (fun p => p.1 == "exit_loop") = false) := by
  intro cm w mh mhc ean ei ri uq agents0 maxIter e he hcontains
  have hrun : ∀ x ∈ (capIters cm w mh mhc ean ei ri uq maxIter 1
      ⟨agents0, ⟨[], []⟩, [], [], false, none, ""⟩).run_log,
      ean.contains x.agent = false →
      ∃ a0, agents0.get? x.idx = some a0 ∧ x.toolsAtCall = a0.tools ∧
        x.instrAtCall = a0.instruction :=
    capIters_isolation cm w mh mhc ean ei ri uq agents0 maxIter 1
      ⟨agents0, ⟨[], []⟩, [], [], false, none, ""⟩ rfl (by intro x hx; cases hx)
  have hmem : e ∈ (capIters cm w mh mhc ean ei ri uq maxIter 1
      ⟨agents0, ⟨[], []⟩, [], [], false, none, ""⟩).run_log := by
    revert he
    simp only [capRun]
    split
    · exact fun h => h
    · exact fun h => h
  obtain ⟨a0, hg0, ht, hi⟩ := hrun e hmem hcontains
  exact ⟨a0, hg0, ht, hi, fun hno => by rw [ht]; exact hno⟩

/-- Witness for C2: in the concrete two-agent run (only `a2` privileged), the
non-privileged `a1` agent's recorded invocation shows its original empty
registry and unmodified instruction, and every non-privileged invocation of
the run is free of the `exit_loop` key. -/
theorem C2_isolation_witness :
    (c2run.run_log.get? 0).map
        (fun e => (e.agent, e.toolsAtCall, e.instrAtCall)) =
      some ("a1", [], "i1") ∧
    c2run.run_log.all
      (fun e => (["a2"] : List String).contains e.agent ||
        !(e.toolsAtCall.any (fun p => p.1 == "exit_loop"))) = true := by
  refine ⟨by decide, ?_⟩
  rw [List.all_eq_true]
  intro e he
  by_cases hc : (["a2"] : List String).contains e.agent = true
  · rw [hc]
    rfl
  · simp only [Bool.not_eq_true] at hc
    obtain ⟨a0, hg0, ht, -, hx⟩ :=
      C2_nonprivileged_never_sees_exit_capability none 2 20 2000 ["a2"]
        "stop when done" (fun _ => "") "q" [c2a1, c2a2] 2 e he hc
    have hnone : e.toolsAtCall.any (fun p => p.1 == "exit_loop") = false := by
      apply hx
      have hmem := List.get?_mem hg0
      simp only [List.mem_cons, List.not_mem_nil, or_false] at hmem
      rcases hmem with rfl | rfl
      · decide
      · decide
    simp [hnone]

theorem capAgents_exit_last
    (cm : Option (String → Except Unit String)) (w mh mhc : Nat)
    (ean : List String) (ei : String) (ri : CapInput → String) (uq : String)
    (iteration : Nat) :
    ∀ (idxs : List Nat) (st : CapSt),
      st.exited = false →
      (∀ e ∈ st.run_log, e.signaled = false) →
      ((capAgents cm w mh mhc ean ei ri uq iteration idxs st).exited = false →
        ∀ e ∈ (capAgents cm w mh mhc ean ei ri uq iteration idxs st).run_log,
          e.signaled = false) ∧
      ((capAgents cm w mh mhc ean ei ri uq iteration idxs st).exited = true →
        ∀ e ∈ (capAgents cm w mh mhc ean ei ri uq iteration
            idxs st).run_log.dropLast, e.signaled = false) := by
  intro idxs
  induction idxs with
  | nil =>
    intro st hex hlog
    simp only [capAgents]
    refine ⟨fun _ => hlog, fun hx => ?_⟩
    rw [hex] at hx
    cases hx
  | cons i rest ih =>
    intro st hex hlog
    rcases capStep_spec cm w mh mhc ean ei ri uq iteration i st with
      ⟨-, hstep⟩ |
      ⟨agent, entry, -, hlogstep, -, hexstep, -, -, -, -, -, -, -⟩
    · simp only [capAgents, hstep]
      split
      · rename_i hx
        rw [hx] at hex
        cases hex
      · exact ih st hex hlog
    · rw [hex, Bool.false_or] at hexstep
      simp only [capAgents]
      split
      · rename_i hx
        refine ⟨fun hq => ?_, fun _ => ?_⟩
        · rw [hq] at hx
          cases hx
        · rw [hlogstep, List.dropLast_concat]
          exact hlog
      · rename_i hx
        simp only [Bool.not_eq_true] at hx
        have hsig : entry.signaled = false := by
          rw [← hexstep]
          exact hx
        apply ih
        · exact hx
        · intro e he
          rw [hlogstep] at he
          rcases List.mem_append.mp he with he | he
          · exact hlog e he
          · have : e = entry := by simpa using he
            rw [this]
            exact hsig

theorem capIters_exit_last
    (cm : Option (String → Except Unit String)) (w mh mhc : Nat)
    (ean : List String) (ei : String) (ri : CapInput → String) (uq : String) :
    ∀ (n iteration : Nat) (st : CapSt),
      st.exited = false →
      (∀ e ∈ st.run_log, e.signaled = false) →
      ∀ e ∈ (capIters cm w mh mhc ean ei ri uq n iteration st).run_log.dropLast,
        e.signaled = false := by
  intro n
  induction n with
  | zero =>
    intro iteration st hex hlog
    intro e he
    exact hlog e (List.dropLast_subset _ he)
  | succ n ih =>
    intro iteration st hex hlog
    obtain ⟨hok, hexit⟩ := capAgents_exit_last cm w mh mhc ean ei ri uq
      iteration (List.range st.agents.length) st hex hlog
    simp only [capIters]
    split
    · rename_i hx
      exact hexit hx
    · rename_i hx
      simp only [Bool.not_eq_true] at hx
      exact ih (iteration + 1) _ hx (hok hx)

theorem seqAddMemory_ok_long
    (cm : Option (List SMEntry → Except Unit String)) (w M : Nat)
    (mem : SeqMem) (a o : String) (m' : SeqMem)
    (h : seqAddMemory cm w M mem a o = Except.ok m') :
    m'.long = mem.long ++ [(a, o)] := by
  simp only [seqAddMemory, bind, Except.bind] at h
  rcases he : enforceMemoryLimits cm w M (mem.short ++ [SMEntry.out a o])
    with e | s
  · rw [he] at h
    cases h
  · rw [he] at h
    cases h
    rfl

theorem flagStep_ok_spec
    (parse : String → Option ParsedOut)
    (cm : Option (List SMEntry → Except Unit String))
    (w M lmw : Nat) (exitIds : List Nat) (uq : String)
    (cycle stepNo : Nat) (a : FAgent) (st : FlagSt) (fwd : Option String)
    (st' : FlagSt) (fwd' : Option String)
    (h : flagStep parse cm w M lmw exitIds uq cycle stepNo a st fwd =
      Except.ok (st', fwd')) :
    ∃ inp : FStepInput,
      st'.trace = st.trace ++ [⟨cycle, stepNo, a.name, a.behave inp,
        flagSignals exitIds parse a inp⟩] ∧
      st'.mem.long = st.mem.long ++ [(a.name, a.behave inp)] ∧
      (flagSignals exitIds parse a inp = true → st'.loop_flag = false) ∧
      (flagSignals exitIds parse a inp = false →
        st'.loop_flag = st.loop_flag) := by
  simp only [flagStep, bind, Except.bind] at h
  revert h
  set inp : FStepInput :=
    { original_query := uq
      loop_cycle := cycle
      step_number := stepNo
      agent_name := a.name
      agent_local_memory := dictGet st.localMem a.name []
      global_short_memory := st.mem.short
      additional_instruction_from_previous_agent := fwd
      contract := build_contract (exitIds.contains a.id) } with hinp
  intro h
  refine ⟨inp, ?_⟩
  split at h
  · cases h
  · rename_i mem' hmem
    have hlong := seqAddMemory_ok_long cm w M st.mem a.name (a.behave inp)
      mem' hmem
    split at h
    · rename_i p hp
      have hsig : flagSignals exitIds parse a inp =
          (exitIds.contains a.id && p.terminate_loop.getD false) := by
        simp only [flagSignals, hp]
      split at h
      · rename_i hc
        cases h
        rw [hsig, hc]
        refine ⟨rfl, hlong, fun _ => rfl, fun hf => ?_⟩
        cases hf
      · rename_i hc
        simp only [Bool.not_eq_true] at hc
        cases h
        rw [hsig, hc]
        refine ⟨rfl, hlong, fun hf => ?_, fun _ => rfl⟩
        cases hf
    · rename_i hp
      have hsig : flagSignals exitIds parse a inp = false := by
        simp only [flagSignals, hp]
        simp
      cases h
      rw [hsig]
      refine ⟨rfl, hlong, fun hf => ?_, fun _ => rfl⟩
      cases hf

theorem flagAgents_flag_false
    (parse : String → Option ParsedOut)
    (cm : Option (List SMEntry → Except Unit String))
    (w M lmw : Nat) (exitIds : List Nat) (uq : String) (cycle : Nat) :
    ∀ (stepNo : Nat) (agents : List FAgent) (st : FlagSt)
      (fwd : Option String),
      st.loop_flag = false →
      flagAgents parse cm w M lmw exitIds uq cycle stepNo agents st fwd =
        Except.ok (st, fwd) := by
  intro stepNo agents st fwd hflag
  cases agents with
  | nil => rfl
  | cons a rest =>
    simp only [flagAgents, hflag]
    rfl

theorem flagAgents_exit_last
    (parse : String → Option ParsedOut)
    (cm : Option (List SMEntry → Except Unit String))
    (w M lmw : Nat) (exitIds : List Nat) (uq : String) (cycle : Nat) :
    ∀ (agents : List FAgent) (stepNo : Nat) (st : FlagSt)
      (fwd : Option String) (st' : FlagSt) (fwd' : Option String),
      flagAgents parse cm w M lmw exitIds uq cycle stepNo agents st fwd =
        Except.ok (st', fwd') →
      st.loop_flag = true →
      (∀ e ∈ st.trace, e.terminated = false) →
      ((st'.loop_flag = true → ∀ e ∈ st'.trace, e.terminated = false) ∧
       (st'.loop_flag = false →
        ∀ e ∈ st'.trace.dropLast, e.terminated = false)) := by
  intro agents
  induction agents with
  | nil =>
    intro stepNo st fwd st' fwd' h hflag hlog
    simp only [flagAgents] at h
    cases h
    refine ⟨fun _ => hlog, fun hf => ?_⟩
    rw [hflag] at hf
    cases hf
  | cons a rest ih =>
    intro stepNo st fwd st' fwd' h hflag hlog
    simp only [flagAgents, hflag, if_true, bind, Except.bind] at h
    rcases hstep : flagStep parse cm w M lmw exitIds uq cycle stepNo a st fwd
      with e | ⟨st1, fwd1⟩
    · rw [hstep] at h
      cases h
    · rw [hstep] at h
      have h' : flagAgents parse cm w M lmw exitIds uq cycle (stepNo + 1)
          rest st1 fwd1 = Except.ok (st', fwd') := h
      obtain ⟨inp, htrace, -, hsigT, hsigF⟩ :=
        flagStep_ok_spec parse cm w M lmw exitIds uq cycle stepNo a st fwd
          st1 fwd1 hstep
      by_cases hsig : flagSignals exitIds parse a inp = true
      · have hflag1 : st1.loop_flag = false := hsigT hsig
        rw [flagAgents_flag_false parse cm w M lmw exitIds uq cycle
          (stepNo + 1) rest st1 fwd1 hflag1] at h'
        cases h'
        refine ⟨fun ht => ?_, fun _ => ?_⟩
        · rw [hflag1] at ht
          cases ht
        · rw [htrace, List.dropLast_concat]
          exact hlog
      · simp only [Bool.not_eq_true] at hsig
        have hflag1 : st1.loop_flag = true := by
          rw [hsigF hsig, hflag]
        have hlog1 : ∀ e ∈ st1.trace, e.terminated = false := by
          intro e he
          rw [htrace] at he
          rcases List.mem_append.mp he with he | he
          · exact hlog e he
          · have : e = ⟨cycle, stepNo, a.name, a.behave inp,
                flagSignals exitIds parse a inp⟩ := by simpa using he
            rw [this]
            exact hsig
        exact ih (stepNo + 1) st1 fwd1 st' fwd' h hflag1 hlog1

theorem flagCycles_exit_last
    (parse : String → Option ParsedOut)
    (cm : Option (List SMEntry → Except Unit String))
    (w M lmw : Nat) (exitIds : List Nat) (uq : String)
    (agents : List FAgent) :
    ∀ (n done : Nat) (st : FlagSt) (fwd : Option String) (st' : FlagSt)
      (fwd' : Option String),
      flagCycles parse cm w M lmw exitIds uq agents n done st fwd =
        Except.ok (st', fwd') →
      st.loop_flag = true →
      (∀ e ∈ st.trace, e.terminated = false) →
      ((st'.loop_flag = true → ∀ e ∈ st'.trace, e.terminated = false) ∧
       (st'.loop_flag = false →
        ∀ e ∈ st'.trace.dropLast, e.terminated = false)) := by
  intro n
  induction n with
  | zero =>
    intro done st fwd st' fwd' h hflag hlog
    simp only [flagCycles] at h
    cases h
    refine ⟨fun _ => hlog, fun hf => ?_⟩
    rw [hflag] at hf
    cases hf
  | succ n ih =>
    intro done st fwd st' fwd' h hflag hlog
    simp only [flagCycles, hflag, if_true, bind, Except.bind] at h
    rcases hag : flagAgents parse cm w M lmw exitIds uq (done + 1) 1 agents
      st fwd with e | ⟨st1, fwd1⟩
    · rw [hag] at h
      cases h
    · rw [hag] at h
      obtain ⟨hT, hF⟩ := flagAgents_exit_last parse cm w M lmw exitIds uq
        (done + 1) agents 1 st fwd st1 fwd1 hag hflag hlog
      have h' : flagCycles parse cm w M lmw exitIds uq agents n (done + 1)
          st1 fwd1 = Except.ok (st', fwd') := h
      by_cases hflag1 : st1.loop_flag = true
      · exact ih (done + 1) st1 fwd1 st' fwd' h' hflag1 (hT hflag1)
      · simp only [Bool.not_eq_true] at hflag1
        have hstop : flagCycles parse cm w M lmw exitIds uq agents n (done + 1)
            st1 fwd1 = Except.ok (st1, fwd1) := by
          cases n with
          | zero => rfl
          | succ m => simp only [flagCycles, hflag1]; rfl
        rw [hstop] at h'
        cases h'
        refine ⟨fun ht => ?_, fun _ => hF hflag1⟩
        rw [hflag1] at ht
        cases ht

/-- Claim C1: in both Loop Orchestrator variants, an exit signal by a
privileged agent ends the run immediately: every recorded invocation other
than the last one is exit-free (so nothing runs after the signalling agent in
its cycle, and no later cycle runs).  In the concrete scenario — two agents,
privileged set `{agent2}`, `max_loops = 2`, `agent2` emitting
`terminate_loop = true` on cycle 1 — the run records exactly the two
invocations (agent1 cycle 1, agent2 cycle 1) and ends with the loop flag
cleared (`TERMINATED`). -/
theorem C1_privileged_exit_stops_loop :
    (∀ (parse : String → Option ParsedOut)
      (cm : Option (List SMEntry → Except Unit String))
      (w M lmw : Nat) (exitIds : List Nat) (uq : String)
      (agents : List FAgent) (max_loops : Nat) (r : FlagResult),
      flagRun parse cm w M lmw exitIds uq agents max_loops = Except.ok r →
      ∀ e ∈ r.st.trace.dropLast, e.terminated = false) ∧
    (∀ (cm : Option (String → Except Unit String)) (w mh mhc : Nat)
      (ean : List String) (ei : String) (ri : CapInput → String)
      (uq : String) (agents : List CAgent) (max_iterations : Nat),
      ∀ e ∈ (capRun cm w mh mhc ean ei ri uq agents
          max_iterations).run_log.dropLast, e.signaled = false) ∧
    (c1run = Except.ok c1res ∧
      c1res.st.trace.map (fun e => (e.cycle, e.agent, e.terminated)) =
        [(1, "agent1", false), (1, "agent2", true)] ∧
      c1res.st.loop_flag = false ∧
      c1res.st.trace.length = 2) := by
  refine ⟨?_, ?_, ?_, by decide, by decide, by decide⟩
  · intro parse cm w M lmw exitIds uq agents maxLoops r hrun e he
    simp only [flagRun, bind, Except.bind] at hrun
    rcases hcy : flagCycles parse cm w M lmw exitIds uq agents maxLoops 0
        ⟨⟨[], []⟩, agents.foldl (fun d a => dictInsert d a.name []) [],
          true, []⟩ none with er | ⟨st1, fwd1⟩
    · rw [hcy] at hrun
      cases hrun
    · rw [hcy] at hrun
      cases hrun
      obtain ⟨hT, hF⟩ := flagCycles_exit_last parse cm w M lmw exitIds uq
        agents maxLoops 0 _ none st1 fwd1 hcy rfl (by intro x hx; cases hx)
      by_cases hflag1 : st1.loop_flag = true
      · exact hT hflag1 e (List.dropLast_subset _ he)
      · simp only [Bool.not_eq_true] at hflag1
        exact hF hflag1 e he
  · intro cm w mh mhc ean ei ri uq agents maxIter e he
    have hlast := capIters_exit_last cm w mh mhc ean ei ri uq maxIter 1
      ⟨agents, ⟨[], []⟩, [], [], false, none, ""⟩ rfl
      (by intro x hx; cases hx)
    apply hlast
    revert he
    simp only [capRun]
    split
    · exact fun h => h
    · exact fun h => h
  · rfl

/-- Witness for C1 applied at the scenario run: every non-final trace entry of
the scenario is exit-free. -/
theorem C1_privileged_exit_witness :
    c1res.st.trace.dropLast.all (fun e => !e.terminated) = true := by
  rw [List.all_eq_true]
  intro e he
  have := C1_privileged_exit_stops_loop.1 c1parse none 2 8000 5 [2] "q"
    [c1a1, c1a2] 2 c1res (by decide) e he
  simp [this]

theorem range_map_get {α β : Type} (l : List α) (f : α → β) (d : β) :
    (List.range l.length).map (fun i => ((l.get? i).map f).getD d) =
      l.map f := by
  induction l with
  | nil => rfl
  | cons a tl ih =>
    rw [List.length_cons, List.range_succ_eq_map, List.map_cons, List.map_map]
    congr 1

theorem flagAgents_no_exit
    (parse : String → Option ParsedOut)
    (cm : Option (List SMEntry → Except Unit String))
    (w M lmw : Nat) (exitIds : List Nat) (uq : String) (cycle : Nat) :
    ∀ (agents : List FAgent) (stepNo : Nat) (st : FlagSt)
      (fwd : Option String) (st' : FlagSt) (fwd' : Option String),
      (∀ a ∈ agents, ∀ inp, flagSignals exitIds parse a inp = false) →
      flagAgents parse cm w M lmw exitIds uq cycle stepNo agents st fwd =
        Except.ok (st', fwd') →
      st.loop_flag = true →
      st'.loop_flag = true ∧
      st'.trace.map (fun e => (e.cycle, e.agent)) =
        st.trace.map (fun e => (e.cycle, e.agent)) ++
          agents.map (fun a => (cycle, a.name)) ∧
      (st.mem.long = st.trace.map (fun e => (e.agent, e.response)) →
        st'.mem.long = st'.trace.map (fun e => (e.agent, e.response))) := by
  intro agents
  induction agents with
  | nil =>
    intro stepNo st fwd st' fwd' _ h hflag
    simp only [flagAgents] at h
    cases h
    exact ⟨hflag, by simp, fun hs => hs⟩
  | cons a rest ih =>
    intro stepNo st fwd st' fwd' hno h hflag
    simp only [flagAgents, hflag, if_true, bind, Except.bind] at h
    rcases hstep : flagStep parse cm w M lmw exitIds uq cycle stepNo a st fwd
      with e | ⟨st1, fwd1⟩
    · rw [hstep] at h
      cases h
    · rw [hstep] at h
      have h' : flagAgents parse cm w M lmw exitIds uq cycle (stepNo + 1)
          rest st1 fwd1 = Except.ok (st', fwd') := h
      obtain ⟨inp, htrace, hlong, -, hsigF⟩ :=
        flagStep_ok_spec parse cm w M lmw exitIds uq cycle stepNo a st fwd
          st1 fwd1 hstep
      have hsig : flagSignals exitIds parse a inp = false :=
        hno a (List.mem_cons_self a rest) inp
      have hflag1 : st1.loop_flag = true := by rw [hsigF hsig, hflag]
      obtain ⟨hf', hsh', hsy'⟩ := ih (stepNo + 1) st1 fwd1 st' fwd'
        (fun b hb inp' => hno b (List.mem_cons_of_mem a hb) inp') h' hflag1
      refine ⟨hf', ?_, ?_⟩
      · rw [hsh', htrace]
        simp [List.map_append]
      · intro hsy
        apply hsy'
        rw [hlong, htrace, hsy]
        simp [List.map_append]

theorem flagCycles_no_exit
    (parse : String → Option ParsedOut)
    (cm : Option (List SMEntry → Except Unit String))
    (w M lmw : Nat) (exitIds : List Nat) (uq : String)
    (agents : List FAgent)
    (hno : ∀ a ∈ agents, ∀ inp, flagSignals exitIds parse a inp = false) :
    ∀ (n done : Nat) (st : FlagSt) (fwd : Option String) (st' : FlagSt)
      (fwd' : Option String),
      flagCycles parse cm w M lmw exitIds uq agents n done st fwd =
        Except.ok (st', fwd') →
      st.loop_flag = true →
      st'.loop_flag = true ∧
      st'.trace.map (fun e => (e.cycle, e.agent)) =
        st.trace.map (fun e => (e.cycle, e.agent)) ++
          ((List.range n).map (fun k => done + 1 + k)).bind
            (fun c => agents.map (fun a => (c, a.name))) ∧
      (st.mem.long = st.trace.map (fun e => (e.agent, e.response)) →
        st'.mem.long = st'.trace.map (fun e => (e.agent, e.response))) := by
  intro n
  induction n with
  | zero =>
    intro done st fwd st' fwd' h hflag
    simp only [flagCycles] at h
    cases h
    exact ⟨hflag, by simp, fun hs => hs⟩
  | succ n ih =>
    intro done st fwd st' fwd' h hflag
    simp only [flagCycles, hflag, if_true, bind, Except.bind] at h
    rcases hag : flagAgents parse cm w M lmw exitIds uq (done + 1) 1 agents
      st fwd with e | ⟨st1, fwd1⟩
    · rw [hag] at h
      cases h
    · rw [hag] at h
      have h' : flagCycles parse cm w M lmw exitIds uq agents n (done + 1)
          st1 fwd1 = Except.ok (st', fwd') := h
      obtain ⟨hflag1, hsh1, hsy1⟩ := flagAgents_no_exit parse cm w M lmw
        exitIds uq (done + 1) agents 1 st fwd st1 fwd1 hno hag hflag
      obtain ⟨hf', hsh', hsy'⟩ := ih (done + 1) st1 fwd1 st' fwd' h' hflag1
      refine ⟨hf', ?_, fun hsy => hsy' (hsy1 hsy)⟩
      rw [hsh', hsh1, List.append_assoc]
      congr 1
      rw [List.range_succ_eq_map, List.map_cons, List.map_map]
      simp only [List.cons_bind]
      congr 1
      have harith : ((fun k => done + 1 + k) ∘ Nat.succ) =
          (fun k => done + 1 + 1 + k) := funext (fun k => by
        simp only [Function.comp]
        omega)
      rw [harith]

theorem capAgents_no_exit
    (cm : Option (String → Except Unit String)) (w mh mhc : Nat)
    (ean : List String) (ei : String) (ri : CapInput → String) (uq : String)
    (agents0 : List CAgent) (iteration : Nat)
    (hno : ∀ a ∈ agents0, ∀ tls ins inp,
      (a.behave tls ins inp).callsExit = false) :
    ∀ (idxs : List Nat) (st : CapSt),
      st.agents.map agentCore = agents0.map agentCore →
      (∀ i ∈ idxs, i < agents0.length) →
      st.exited = false →
      (capAgents cm w mh mhc ean ei ri uq iteration idxs st).exited = false ∧
      (capAgents cm w mh mhc ean ei ri uq iteration idxs st).agents.map
        agentCore = agents0.map agentCore ∧
      (capAgents cm w mh mhc ean ei ri uq iteration idxs st).run_log.map
          (fun e => (e.iteration, e.agent)) =
        st.run_log.map (fun e => (e.iteration, e.agent)) ++
          idxs.map (fun i =>
            ((agents0.get? i).map (fun a => (iteration, a.name))).getD
              (iteration, "")) := by
  intro idxs
  induction idxs with
  | nil =>
    intro st hcore _ hex
    exact ⟨hex, hcore, by simp [capAgents]⟩
  | cons i rest ih =>
    intro st hcore hvalid hex
    have hlen : st.agents.length = agents0.length := by
      have := congrArg List.length hcore
      simpa using this
    have hlt : i < st.agents.length := by
      rw [hlen]
      exact hvalid i (List.mem_cons_self i rest)
    rcases hget : st.agents.get? i with _ | agent
    · exact absurd hget (by simp [List.get?_eq_getElem?, List.getElem?_eq_some_iff, hlt])
    · rcases capStep_spec cm w mh mhc ean ei ri uq iteration i st with
        ⟨hnone, -⟩ |
        ⟨agent', entry, hget', hlogstep, hcorestep, hexstep, hiter, hagent,
          -, hsigval, -, -, -⟩
      · rw [hget] at hnone
        cases hnone
      · rw [hget] at hget'
        cases hget'
        obtain ⟨a0, hg0, hname0, -, -, hbeh0⟩ := core_get hcore hget
        have hsig : entry.signaled = false := by
          obtain ⟨tls, ins, inp, hs⟩ := hsigval
          rw [hs, ← hbeh0, hno a0 (List.get?_mem hg0) tls ins inp]
          simp
        have hex1 : (capStep cm w mh mhc ean ei ri uq iteration i
            st).exited = false := by
          rw [hexstep, hex, hsig]
          rfl
        have hcore1 := hcorestep.trans hcore
        obtain ⟨hexr, hcorer, hlogr⟩ := ih
          (capStep cm w mh mhc ean ei ri uq iteration i st) hcore1
          (fun j hj => hvalid j (List.mem_cons_of_mem i hj)) hex1
        simp only [capAgents, hex1]
        refine ⟨?_, ?_, ?_⟩
        · simpa [hex1] using hexr
        · simpa [hex1] using hcorer
        · rw [List.map_cons]
          have hpair :
              ((agents0.get? i).map (fun a => (iteration, a.name))).getD
                (iteration, "") = (iteration, agent.name) := by
            rw [hg0]
            simp [hname0]
          rw [hpair]
          calc (capAgents cm w mh mhc ean ei ri uq iteration rest
                (capStep cm w mh mhc ean ei ri uq iteration i st)).run_log.map
                  (fun e => (e.iteration, e.agent))
              = (capStep cm w mh mhc ean ei ri uq iteration i st).run_log.map
                  (fun e => (e.iteration, e.agent)) ++
                rest.map (fun j =>
                  ((agents0.get? j).map (fun a => (iteration, a.name))).getD
                    (iteration, "")) := hlogr
            _ = st.run_log.map (fun e => (e.iteration, e.agent)) ++
                ((iteration, agent.name) ::
                  rest.map (fun j =>
                    ((agents0.get? j).map
                      (fun a => (iteration, a.name))).getD (iteration, ""))) := by
                rw [hlogstep]
                simp [hiter, hagent]

theorem capIters_no_exit
    (cm : Option (String → Except Unit String)) (w mh mhc : Nat)
    (ean : List String) (ei : String) (ri : CapInput → String) (uq : String)
    (agents0 : List CAgent)
    (hno : ∀ a ∈ agents0, ∀ tls ins inp,
      (a.behave tls ins inp).callsExit = false) :
    ∀ (n iteration : Nat) (st : CapSt),
      st.agents.map agentCore = agents0.map agentCore →
      st.exited = false →
      (capIters cm w mh mhc ean ei ri uq n iteration st).exited = false ∧
      (capIters cm w mh mhc ean ei ri uq n iteration st).run_log.map
          (fun e => (e.iteration, e.agent)) =
        st.run_log.map (fun e => (e.iteration, e.agent)) ++
          ((List.range n).map (fun k => iteration + k)).bind
            (fun c => agents0.map (fun a => (c, a.name))) := by
  intro n
  induction n with
  | zero =>
    intro iteration st _ hex
    exact ⟨hex, by simp [capIters]⟩
  | succ n ih =>
    intro iteration st hcore hex
    have hlen : st.agents.length = agents0.length := by
      have := congrArg List.length hcore
      simpa using this
    obtain ⟨hex1, hcore1, hlog1⟩ := capAgents_no_exit cm w mh mhc ean ei ri
      uq agents0 iteration hno (List.range st.agents.length) st hcore
      (fun i hi => by rw [← hlen]; exact List.mem_range.mp hi) hex
    have hpass : (List.range st.agents.length).map (fun i =>
        ((agents0.get? i).map (fun a => (iteration, a.name))).getD
          (iteration, "")) = agents0.map (fun a => (iteration, a.name)) := by
      rw [hlen]
      exact range_map_get agents0 (fun a => (iteration, a.name))
        (iteration, "")
    obtain ⟨hexr, hlogr⟩ := ih (iteration + 1) _ hcore1 hex1
    simp only [capIters, hex1, Bool.false_eq_true, if_false]
    refine ⟨hexr, ?_⟩
    rw [hlogr, hlog1, hpass, List.append_assoc]
    congr 1
    rw [List.range_succ_eq_map, List.map_cons, List.map_map]
    simp only [List.cons_bind]
    congr 1
    have harith : ((fun k => iteration + k) ∘ Nat.succ) =
        (fun k => iteration + 1 + k) := funext (fun k => by
      simp only [Function.comp]
      omega)
    rw [harith]

theorem length_bind_const {α β : Type} (l : List α) (f : α → List β) (c : Nat)
    (h : ∀ x ∈ l, (f x).length = c) : (l.bind f).length = l.length * c := by
  induction l with
  | nil => simp
  | cons a tl ih =>
    show (f a ++ tl.bind f).length = (tl.length + 1) * c
    rw [List.length_append, h a (List.mem_cons_self a tl),
      ih (fun x hx => h x (List.mem_cons_of_mem a hx))]
    ring

/-- Claim C7: in both Loop Orchestrator variants, when no agent ever signals
exit, the run performs exactly `max_loops` (resp. `max_iterations`) full
cycles through every agent in list order — the recorded (cycle, agent)
sequence is precisely the full enumeration — and stops in the exhausted state
(loop flag still set / exited still false), which is not an error, returning
the output of the last recorded invocation as the final result. -/
theorem C7_exhaustion_runs_all_cycles :
    (∀ (parse : String → Option ParsedOut)
      (cm : Option (List SMEntry → Except Unit String))
      (w M lmw : Nat) (exitIds : List Nat) (uq : String)
      (agents : List FAgent) (N : Nat) (r : FlagResult),
      (∀ a ∈ agents, ∀ inp, flagSignals exitIds parse a inp = false) →
      flagRun parse cm w M lmw exitIds uq agents N = Except.ok r →
      r.st.loop_flag = true ∧
      r.st.trace.map (fun e => (e.cycle, e.agent)) =
        ((List.range N).map (fun k => k + 1)).bind
          (fun c => agents.map (fun a => (c, a.name))) ∧
      r.st.trace.length = N * agents.length ∧
      r.result = ((r.st.trace.getLast?).map (fun e => e.response)).getD "") ∧
    (∀ (cm : Option (String → Except Unit String)) (w mh mhc : Nat)
      (ean : List String) (ei : String) (ri : CapInput → String)
      (uq : String) (agents : List CAgent) (N : Nat),
      (∀ a ∈ agents, ∀ tls ins inp,
        (a.behave tls ins inp).callsExit = false) →
      (capRun cm w mh mhc ean ei ri uq agents N).exited = false ∧
      (capRun cm w mh mhc ean ei ri uq agents N).run_log.map
          (fun e => (e.iteration, e.agent)) =
        ((List.range N).map (fun k => k + 1)).bind
          (fun c => agents.map (fun a => (c, a.name))) ∧
      (capRun cm w mh mhc ean ei ri uq agents N).run_log.length =
        N * agents.length ∧
      (capRun cm w mh mhc ean ei ri uq agents N).final_output =
        (((capRun cm w mh mhc ean ei ri uq agents N).run_log.getLast?).map
          (fun e => e.output)).getD "") := by
  have harith1 : ((fun k : Nat => 0 + 1 + k)) = (fun k : Nat => k + 1) :=
    funext (fun k => by omega)
  have harith2 : ((fun k : Nat => 1 + k)) = (fun k : Nat => k + 1) :=
    funext (fun k => by omega)
  constructor
  · intro parse cm w M lmw exitIds uq agents N r hno hrun
    simp only [flagRun, bind, Except.bind] at hrun
    rcases hcy : flagCycles parse cm w M lmw exitIds uq agents N 0
        ⟨⟨[], []⟩, agents.foldl (fun d a => dictInsert d a.name []) [],
          true, []⟩ none with e | ⟨st1, fwd1⟩
    · rw [hcy] at hrun
      cases hrun
    · rw [hcy] at hrun
      cases hrun
      obtain ⟨hflag1, hsh1, hsy1⟩ := flagCycles_no_exit parse cm w M lmw
        exitIds uq agents hno N 0 _ none st1 fwd1 hcy rfl
      have hsync : st1.mem.long =
          st1.trace.map (fun e => (e.agent, e.response)) := hsy1 rfl
      have hsh : st1.trace.map (fun e => (e.cycle, e.agent)) =
          ((List.range N).map (fun k => k + 1)).bind
            (fun c => agents.map (fun a => (c, a.name))) := by
        rw [hsh1, harith1]
        rfl
      have hlen : st1.trace.length = N * agents.length := by
        have h1 := congrArg List.length hsh
        rw [List.length_map] at h1
        rw [h1, length_bind_const _ _ agents.length
          (fun c _ => List.length_map agents _)]
        simp
      refine ⟨hflag1, hsh, hlen, ?_⟩
      rw [hsync, List.getLast?_map]
      rcases st1.trace.getLast? with _ | e <;> rfl
  · intro cm w mh mhc ean ei ri uq agents N hno
    obtain ⟨hex, hlog⟩ := capIters_no_exit cm w mh mhc ean ei ri uq agents
      hno N 1 ⟨agents, ⟨[], []⟩, [], [], false, none, ""⟩ rfl rfl
    have hsh : (capIters cm w mh mhc ean ei ri uq N 1
        ⟨agents, ⟨[], []⟩, [], [], false, none, ""⟩).run_log.map
          (fun e => (e.iteration, e.agent)) =
        ((List.range N).map (fun k => k + 1)).bind
          (fun c => agents.map (fun a => (c, a.name))) := by
      rw [hlog, harith2]
      rfl
    have hlen : (capIters cm w mh mhc ean ei ri uq N 1
        ⟨agents, ⟨[], []⟩, [], [], false, none, ""⟩).run_log.length =
        N * agents.length := by
      have h1 := congrArg List.length hsh
      rw [List.length_map] at h1
      rw [h1, length_bind_const _ _ agents.length
        (fun c _ => List.length_map agents _)]
      simp
    have hunfold : capRun cm w mh mhc ean ei ri uq agents N =
        { capIters cm w mh mhc ean ei ri uq N 1
            ⟨agents, ⟨[], []⟩, [], [], false, none, ""⟩ with
          final_output :=
            match (capIters cm w mh mhc ean ei ri uq N 1
                ⟨agents, ⟨[], []⟩, [], [], false, none, ""⟩).run_log.getLast?
              with
            | some e => e.output
            | none => "" } := by
      simp only [capRun, hex, Bool.false_eq_true, if_false]
    rw [hunfold]
    refine ⟨hex, hsh, hlen, ?_⟩
    rcases (capIters cm w mh mhc ean ei ri uq N 1
        ⟨agents, ⟨[], []⟩, [], [], false, none, ""⟩).run_log.getLast?
      with _ | e <;> rfl

/-- Witness for C7: both scenario runs with no exit signal — the flag variant
with an always-failing parse and the capability variant with agents that never
call the exit tool — execute all 2 cycles over both agents (4 invocations),
end non-terminated, and return the last output. -/
theorem C7_exhaustion_witness :
    c7res.st.trace.length = 4 ∧ c7res.st.loop_flag = true ∧
    c7res.result = "STOP" ∧
    c7capRun.exited = false ∧ c7capRun.run_log.length = 4 ∧
    c7capRun.final_output = "r2" := by
  obtain ⟨hflag, hsh, hlen, hres⟩ :=
    C7_exhaustion_runs_all_cycles.1 c7parse none 2 8000 5 [2] "q"
      [c1a1, c1a2] 2 c7res
      (by
        intro a ha inp
        simp [flagSignals, c7parse])
      (by decide)
  obtain ⟨hex, hsh2, hlen2, hout⟩ :=
    C7_exhaustion_runs_all_cycles.2 none 2 20 2000 ["a2"] "" (fun _ => "")
      "q" [c2a1, c7capA2] 2
      (by
        intro a ha tls ins inp
        simp only [List.mem_cons, List.not_mem_nil, or_false] at ha
        rcases ha with rfl | rfl <;> rfl)
  exact ⟨hlen, hflag, hres.trans (by decide), hex, hlen2,
    hout.trans (by decide)⟩

end Arctic
